import Mathlib

/-!
# SimpleLang front end: scanner and recursive-descent parser

A shallow embedding of `Header.cpp`, `Lexer.cpp` and `Parser.cpp`.

* A `std::string` is a list of characters addressed by index; a token's text is a `String`.
* The mutable objects `Lexer` and `Parser` become explicit states (`source`/`pos`,
  `tokens`/`current`); every member function takes the state and returns the new one.
* A thrown `std::runtime_error` becomes an `error` result carrying the message.
* The `while` loops and the recursion of the parser are driven by a fuel argument; the
  wrappers start them with a number that bounds the remaining input.
-/

namespace SimpleLang

/-! ## Header.cpp: tokens and tables -/

/-- Token kinds, `enum class TokenType`. -/
inductive TokenType
  | KEYWORD
  | IDENTIFIER
  | NUMBER
  | OPERATOR
  | SYMBOL
  | END_OF_FILE
  deriving DecidableEq, Repr

/-- Token record, `struct Token`. -/
structure Token where
  type : TokenType
  value : String
  deriving DecidableEq, Repr

/-- Keyword table, the map `KEYWORDS`. -/
def KEYWORDS : List (String × TokenType) :=
  [("int", .KEYWORD), ("if", .KEYWORD), ("then", .KEYWORD), ("else", .KEYWORD)]

/-- Operator table, the map `OPERATORS`. -/
def OPERATORS : List (String × TokenType) :=
  [("+", .OPERATOR), ("-", .OPERATOR), ("=", .OPERATOR), ("==", .OPERATOR)]

/-- Number of entries with the given key, `std::unordered_map::count` (0 or 1). -/
def count (table : List (String × TokenType)) (key : String) : Nat :=
  if table.any (fun e => e.1 == key) then 1 else 0

/-! ## Character classes of `<cctype>` in the C locale -/

/-- The character `'\0'`, which `peek` and `advance` return past the end of the source. -/
def NUL : Char := Char.ofNat 0

/-- Whitespace test `isspace`: space, and the control characters tab to carriage return. -/
def isspace (c : Char) : Bool := c.toNat == 32 || (9 ≤ c.toNat && c.toNat ≤ 13)

/-- Digit test `isdigit`. -/
def isdigit (c : Char) : Bool := 48 ≤ c.toNat && c.toNat ≤ 57

/-- Letter test `isalpha`. -/
def isalpha (c : Char) : Bool :=
  (65 ≤ c.toNat && c.toNat ≤ 90) || (97 ≤ c.toNat && c.toNat ≤ 122)

/-- Letter-or-digit test `isalnum`. -/
def isalnum (c : Char) : Bool := isalpha c || isdigit c

/-! ## Lexer.cpp -/

/-- Scanner state, `class Lexer`: the source text and the cursor `pos`. -/
structure Lexer where
  source : List Char
  pos : Nat
  deriving DecidableEq, Repr

/-- Current character, `Lexer::peek`. -/
def Lexer.peek (l : Lexer) : Char :=
  if h : l.pos < l.source.length then l.source[l.pos] else NUL

/-- Current character and the state moved one step on, `Lexer::advance`. -/
def Lexer.advance (l : Lexer) : Char × Lexer :=
  if h : l.pos < l.source.length then (l.source[l.pos], { l with pos := l.pos + 1 })
  else (NUL, l)

/-- Number of characters from the cursor to the end of the source. -/
def Lexer.remaining (l : Lexer) : Nat := l.source.length - l.pos

/-- The loop `while (pred(peek())) acc += advance();`. The fuel is the number of characters
left: when it is used up `peek` is `NUL`, on which none of the three predicates holds. -/
def Lexer.scanWhile (pred : Char → Bool) : Nat → String → Lexer → String × Lexer
  | 0, acc, l => (acc, l)
  | fuel + 1, acc, l =>
    if pred l.peek then Lexer.scanWhile pred fuel (acc.push l.advance.1) l.advance.2
    else (acc, l)

/-- Next token, `Lexer::nextToken`. -/
def Lexer.nextToken (l : Lexer) : Except String (Token × Lexer) :=
  let l := (Lexer.scanWhile isspace l.remaining "" l).2
  if isalpha l.peek then
    let (identifier, l) := Lexer.scanWhile isalnum l.remaining "" l
    if count KEYWORDS identifier ≠ 0 then .ok (⟨.KEYWORD, identifier⟩, l)
    else .ok (⟨.IDENTIFIER, identifier⟩, l)
  else if isdigit l.peek then
    let (number, l) := Lexer.scanWhile isdigit l.remaining "" l
    .ok (⟨.NUMBER, number⟩, l)
  else if count OPERATORS (String.singleton l.peek) ≠ 0 then
    let (c, l) := l.advance
    let op := String.singleton c
    if l.peek = '=' ∧ op = "=" then
      let (c2, l) := l.advance
      .ok (⟨.OPERATOR, op.push c2⟩, l)
    else .ok (⟨.OPERATOR, op⟩, l)
  else if l.peek = ';' ∨ l.peek = '(' ∨ l.peek = ')' then
    let (c, l) := l.advance
    .ok (⟨.SYMBOL, String.singleton c⟩, l)
  else if l.peek = NUL then .ok (⟨.END_OF_FILE, ""⟩, l)
  else .error "Unknown token"

/-- Result of a computation driven by fuel: a value, a thrown error, or fuel used up. -/
inductive Outcome (α : Type) where
  | ok (a : α)
  | error (msg : String)
  | fuelOut
  deriving Repr

/-- Result of the call of `nextToken` that follows `n` earlier calls on the same scanner,
that is of call number `n + 1`; an error of an earlier call ends the sequence. -/
def Lexer.callAfter : Nat → Lexer → Except String (Token × Lexer)
  | 0, l => l.nextToken
  | n + 1, l =>
    match l.nextToken with
    | .ok (_, l') => Lexer.callAfter n l'
    | .error msg => .error msg

/-- Modelled from the spec: the driver between the two components, which is not in the
sources. It calls `nextToken` until END_OF_FILE and hands the tokens before it to the
parser ("produce Tokens until END_OF_FILE"). -/
def Lexer.tokenizeAux : Nat → Lexer → Outcome (List Token)
  | 0, _ => .fuelOut
  | fuel + 1, l =>
    match l.nextToken with
    | .error msg => .error msg
    | .ok (tok, l') =>
      if tok.type = .END_OF_FILE then .ok []
      else
        match Lexer.tokenizeAux fuel l' with
        | .ok toks => .ok (tok :: toks)
        | .error msg => .error msg
        | .fuelOut => .fuelOut

/-- Modelled from the spec: the token sequence of a whole source text; every token before
END_OF_FILE takes at least one character, so `length + 1` calls are enough. -/
def tokenize (src : List Char) : Outcome (List Token) :=
  Lexer.tokenizeAux (src.length + 1) ⟨src, 0⟩

/-- Cursor after the whitespace run that starts at the cursor. -/
def Lexer.afterSpaces (l : Lexer) : Nat :=
  l.pos + ((l.source.drop l.pos).takeWhile isspace).length

/-- The scanner placed after the whitespace run that starts at its cursor. -/
def Lexer.skipped (l : Lexer) : Lexer := ⟨l.source, l.afterSpaces⟩

/-- Longest run of characters satisfying `pred` that starts at index `start` of `src`. -/
def maximalRun (pred : Char → Bool) (src : List Char) (start : Nat) : List Char :=
  (src.drop start).takeWhile pred

/-- The scanner stands, after the whitespace, inside the source on a character that is none
of: a letter, a digit, `+`, `-`, `=`, `;`, `(`, `)`. -/
def Lexer.atUnknownChar (l : Lexer) : Prop :=
  l.afterSpaces < l.source.length ∧ isalpha l.skipped.peek = false ∧
    isdigit l.skipped.peek = false ∧ l.skipped.peek ≠ '+' ∧ l.skipped.peek ≠ '-' ∧
    l.skipped.peek ≠ '=' ∧ l.skipped.peek ≠ ';' ∧ l.skipped.peek ≠ '(' ∧ l.skipped.peek ≠ ')'

/-- State of the scanner object after a call of `nextToken`, whether the call returned or
threw: the throw comes after the whitespace loop and before any other `advance`. -/
def Lexer.stateAfter (l : Lexer) : Lexer :=
  match l.nextToken with
  | .ok (_, l') => l'
  | .error _ => (Lexer.scanWhile isspace l.remaining "" l).2

/-! ## Parser.cpp -/

/-- Node kinds, `enum class ASTNodeType`. -/
inductive ASTNodeType
  | PROGRAM
  | DECLARATION
  | ASSIGNMENT
  | EXPRESSION
  | CONDITIONAL
  deriving DecidableEq, Repr

/-- Tree node, `struct ASTNode`: kind, payload and the owned children in order. -/
inductive ASTNode where
  | mk (type : ASTNodeType) (value : String) (children : List ASTNode)
  deriving Repr

/-- Kind of a node. -/
def ASTNode.type : ASTNode → ASTNodeType
  | .mk t _ _ => t

/-- Payload of a node. -/
def ASTNode.value : ASTNode → String
  | .mk _ v _ => v

/-- Children of a node. -/
def ASTNode.children : ASTNode → List ASTNode
  | .mk _ _ c => c

/-- Parser state, `class Parser`: the token vector and the cursor `current`. -/
structure Parser where
  tokens : List Token
  current : Nat
  deriving DecidableEq, Repr

/-- Current token, `Parser::peek`. -/
def Parser.peek (p : Parser) : Token :=
  if h : p.current < p.tokens.length then p.tokens[p.current] else ⟨.END_OF_FILE, ""⟩

/-- Current token and the state moved one step on, `Parser::advance`. -/
def Parser.advance (p : Parser) : Token × Parser :=
  if h : p.current < p.tokens.length then
    (p.tokens[p.current], { p with current := p.current + 1 })
  else (⟨.END_OF_FILE, ""⟩, p)

/-- Kind test that consumes on success, `Parser::match`. -/
def Parser.match_ (p : Parser) (type : TokenType) : Bool × Parser :=
  if p.peek.type = type then (true, p.advance.2) else (false, p)

/-- Body of `Parser::parseExpression`; the fuel bounds the depth of the recursion. -/
def Parser.parseExpressionAux : Nat → Parser → Outcome (ASTNode × Parser)
  | 0, _ => .fuelOut
  | fuel + 1, p =>
    let (number, p) := p.advance
    if number.type ≠ .NUMBER then .error "Expected a number in expression"
    else
      let expr := ASTNode.mk .EXPRESSION number.value []
      if p.peek.type = .OPERATOR then
        let (op, p) := p.advance
        match Parser.parseExpressionAux fuel p with
        | .ok (right, p) => .ok (ASTNode.mk .EXPRESSION op.value [expr, right], p)
        | .error msg => .error msg
        | .fuelOut => .fuelOut
      else .ok (expr, p)

/-- Expression rule, `Parser::parseExpression`: every call takes a token or fails, so the
number of tokens left plus one bounds the depth. -/
def Parser.parseExpression (p : Parser) : Outcome (ASTNode × Parser) :=
  Parser.parseExpressionAux (p.tokens.length - p.current + 1) p

/-- Declaration rule, `Parser::parseDeclaration`. -/
def Parser.parseDeclaration (p : Parser) : Outcome (ASTNode × Parser) :=
  let p := p.advance.2
  let (identifier, p) := p.advance
  if identifier.type ≠ .IDENTIFIER then .error "Expected variable name after 'int'"
  else
    let (m, p) := p.match_ .SYMBOL
    if !m || p.peek.value ≠ ";" then .error "Expected ';' after variable declaration"
    else
      let p := p.advance.2
      .ok (ASTNode.mk .DECLARATION identifier.value [], p)

/-- Assignment rule, `Parser::parseAssignment`. -/
def Parser.parseAssignment (p : Parser) : Outcome (ASTNode × Parser) :=
  let (identifier, p) := p.advance
  if identifier.type ≠ .IDENTIFIER then .error "Expected variable name for assignment"
  else
    let (m, p) := p.match_ .OPERATOR
    if !m || p.peek.value ≠ "=" then .error "Expected '=' in assignment"
    else
      let p := p.advance.2
      match p.parseExpression with
      | .error msg => .error msg
      | .fuelOut => .fuelOut
      | .ok (expr, p) =>
        let (m, p) := p.match_ .SYMBOL
        if !m || p.peek.value ≠ ";" then .error "Expected ';' after assignment"
        else
          let p := p.advance.2
          .ok (ASTNode.mk .ASSIGNMENT identifier.value [expr], p)

mutual
/-- Statement rule, `Parser::parseStatement`; the fuel bounds the nesting of statements. -/
def Parser.parseStatement : Nat → Parser → Outcome (ASTNode × Parser)
  | 0, _ => .fuelOut
  | fuel + 1, p =>
    let (m, p) := p.match_ .KEYWORD
    if m then
      if p.peek.value = "int" then p.parseDeclaration
      else if p.peek.value = "if" then Parser.parseConditional fuel p
      else p.parseAssignment
    else p.parseAssignment

/-- Conditional rule, `Parser::parseConditional`. -/
def Parser.parseConditional : Nat → Parser → Outcome (ASTNode × Parser)
  | 0, _ => .fuelOut
  | fuel + 1, p =>
    let p := p.advance.2
    match p.parseExpression with
    | .error msg => .error msg
    | .fuelOut => .fuelOut
    | .ok (condition, p) =>
      let (m, p) := p.match_ .KEYWORD
      if !m || p.peek.value ≠ "then" then .error "Expected 'then' after condition"
      else
        let p := p.advance.2
        match Parser.parseStatement fuel p with
        | .error msg => .error msg
        | .fuelOut => .fuelOut
        | .ok (thenBranch, p) =>
          let (m, p) := p.match_ .KEYWORD
          if m && p.peek.value = "else" then
            let p := p.advance.2
            match Parser.parseStatement fuel p with
            | .error msg => .error msg
            | .fuelOut => .fuelOut
            | .ok (elseBranch, p) =>
              .ok (ASTNode.mk .CONDITIONAL "if" [condition, thenBranch, elseBranch], p)
          else .ok (ASTNode.mk .CONDITIONAL "if" [condition, thenBranch], p)
end

/-- The loop of `Parser::parse`, with the children pushed so far. Every statement takes a
token or fails, so the fuel bounds the number of iterations; a statement nests at most as
deep as there are tokens. -/
def Parser.parseLoop : Nat → Parser → List ASTNode → Outcome (ASTNode × Parser)
  | 0, _, _ => .fuelOut
  | fuel + 1, p, children =>
    if p.peek.type ≠ .END_OF_FILE then
      match Parser.parseStatement (p.tokens.length - p.current + 2) p with
      | .error msg => .error msg
      | .fuelOut => .fuelOut
      | .ok (stmt, p) => Parser.parseLoop fuel p (children ++ [stmt])
    else .ok (ASTNode.mk .PROGRAM "" children, p)

/-- Program rule, `Parser::parse`. -/
def Parser.parse (p : Parser) : Outcome (ASTNode × Parser) :=
  Parser.parseLoop (p.tokens.length - p.current + 1) p []

/-- Token sequence `n1 o1 n2 ... o(k-1) nk` of a chain given by its first operand and the
later (operator, operand) pairs. -/
def chainTokens (n : Token) (rest : List (Token × Token)) : List Token :=
  n :: rest.flatMap (fun pr => [pr.1, pr.2])

/-- Right-nested tree of a chain: a leaf for a single operand, otherwise the node of the
first operator over the leaf of the first operand and the tree of the remaining chain. -/
def chainTree : Token → List (Token × Token) → ASTNode
  | n, [] => ASTNode.mk .EXPRESSION n.value []
  | n, (o, n') :: rest =>
    ASTNode.mk .EXPRESSION o.value [ASTNode.mk .EXPRESSION n.value [], chainTree n' rest]

/-! ## Shape of the trees -/

mutual
/-- All nodes of a tree: the node itself, then the nodes of its children in order. -/
def ASTNode.nodes : ASTNode → List ASTNode
  | .mk t v cs => ASTNode.mk t v cs :: ASTNode.nodesOfList cs

/-- All nodes of the trees of a list. -/
def ASTNode.nodesOfList : List ASTNode → List ASTNode
  | [] => []
  | c :: cs => c.nodes ++ ASTNode.nodesOfList cs
end

/-- The kinds of statement nodes: DECLARATION, ASSIGNMENT and CONDITIONAL. -/
def ASTNodeType.isStatement : ASTNodeType → Bool
  | .DECLARATION => true
  | .ASSIGNMENT => true
  | .CONDITIONAL => true
  | _ => false

/-- Texts of the IDENTIFIER tokens of a token sequence. -/
def identifierTexts (tokens : List Token) : List String :=
  (tokens.filter (fun t => t.type = .IDENTIFIER)).map Token.value

/-- Shape required of a node below the root, by kind: no PROGRAM; a DECLARATION has no
children and an identifier payload; an ASSIGNMENT has one EXPRESSION child and an identifier
payload; an EXPRESSION has no children or two EXPRESSION children, the first childless; a
CONDITIONAL has payload `if` and two or three children, an EXPRESSION and then statements. -/
def ASTNode.shapeOk (idents : List String) : ASTNode → Bool
  | .mk .PROGRAM _ _ => false
  | .mk .DECLARATION v cs => cs.isEmpty && idents.contains v
  | .mk .ASSIGNMENT v [e] => e.type == .EXPRESSION && idents.contains v
  | .mk .ASSIGNMENT _ _ => false
  | .mk .EXPRESSION _ [] => true
  | .mk .EXPRESSION _ [a, b] =>
    a.type == .EXPRESSION && b.type == .EXPRESSION && a.children.isEmpty
  | .mk .EXPRESSION _ _ => false
  | .mk .CONDITIONAL v [c, t] => v == "if" && c.type == .EXPRESSION && t.type.isStatement
  | .mk .CONDITIONAL v [c, t, e] =>
    v == "if" && c.type == .EXPRESSION && t.type.isStatement && e.type.isStatement
  | .mk .CONDITIONAL _ _ => false

/-- Well-formed result of `parse` on the given tokens: the root is a PROGRAM with payload
"", its children are statements, and every node below the root has the shape of its kind. -/
def ASTNode.wellFormedProgram (tokens : List Token) (root : ASTNode) : Prop :=
  root.type = .PROGRAM ∧ root.value = "" ∧
    (∀ c ∈ root.children, c.type.isStatement = true) ∧
    (∀ n ∈ ASTNode.nodesOfList root.children, n.shapeOk (identifierTexts tokens) = true)

/-- Tokens of the source `if if 1 then then x = = 2 ; ; else x`. -/
def elseEaten : List Token :=
  [⟨.KEYWORD, "if"⟩, ⟨.KEYWORD, "if"⟩, ⟨.NUMBER, "1"⟩, ⟨.KEYWORD, "then"⟩, ⟨.KEYWORD, "then"⟩,
    ⟨.IDENTIFIER, "x"⟩, ⟨.OPERATOR, "="⟩, ⟨.OPERATOR, "="⟩, ⟨.NUMBER, "2"⟩, ⟨.SYMBOL, ";"⟩,
    ⟨.SYMBOL, ";"⟩, ⟨.KEYWORD, "else"⟩, ⟨.IDENTIFIER, "x"⟩]

/-! ## Lemmas on the scanner and the parser -/

/-- Dropping the run that `takeWhile` takes leaves what `dropWhile` leaves. -/
theorem drop_length_takeWhile (p : Char → Bool) (xs : List Char) :
    xs.drop (xs.takeWhile p).length = xs.dropWhile p := by
  induction xs with
  | nil => rfl
  | cons x xs ih =>
    by_cases hx : p x = true
    · simp [List.takeWhile_cons, List.dropWhile_cons, hx, ih]
    · simp [List.takeWhile_cons, List.dropWhile_cons, hx]

/-- The current character is the head of the unread text, or `NUL` at the end. -/
theorem Lexer.peek_eq_headD (l : Lexer) : l.peek = (l.source.drop l.pos).headD NUL := by
  unfold Lexer.peek
  split
  · next h => rw [List.drop_eq_getElem_cons h]; rfl
  · next h => rw [List.drop_of_length_le (Nat.le_of_not_lt h)]; rfl

/-- With the characters left as fuel the scanning loop appends exactly the maximal run and stops right after it. -/
theorem Lexer.scanWhile_eq (pred : Char → Bool) :
    ∀ (fuel : Nat) (acc : String) (src : List Char) (pos : Nat), fuel = src.length - pos →
      Lexer.scanWhile pred fuel acc ⟨src, pos⟩ =
        (⟨acc.data ++ (src.drop pos).takeWhile pred⟩,
          ⟨src, pos + ((src.drop pos).takeWhile pred).length⟩) := by
  intro fuel
  induction fuel with
  | zero =>
    intro acc src pos h
    have hle : src.length ≤ pos := by omega
    simp [Lexer.scanWhile, List.drop_of_length_le hle]
  | succ n ih =>
    intro acc src pos h
    have hlt : pos < src.length := by omega
    have hd : src.drop pos = src[pos] :: src.drop (pos + 1) := List.drop_eq_getElem_cons hlt
    have hpeek : (⟨src, pos⟩ : Lexer).peek = src[pos] := by simp [Lexer.peek, hlt]
    have hadv : (⟨src, pos⟩ : Lexer).advance = (src[pos], ⟨src, pos + 1⟩) := by
      simp [Lexer.advance, hlt]
    rw [Lexer.scanWhile, hpeek, hadv]
    by_cases hp : pred src[pos] = true
    · have htw : (src.drop pos).takeWhile pred = src[pos] :: (src.drop (pos + 1)).takeWhile pred := by
        rw [hd, List.takeWhile_cons, if_pos hp]
      rw [if_pos hp, ih _ src (pos + 1) (by omega), htw]
      simp only [String.push, List.append_assoc, List.singleton_append, List.length_cons]
      have : pos + 1 + ((src.drop (pos + 1)).takeWhile pred).length
          = pos + (((src.drop (pos + 1)).takeWhile pred).length + 1) := by omega
      rw [this]
    · have htw : (src.drop pos).takeWhile pred = [] := by
        rw [hd, List.takeWhile_cons, if_neg hp]
      rw [if_neg hp, htw]
      simp

/-- The whitespace loop of `nextToken` ends in the state `skipped`. -/
theorem Lexer.skip_eq (l : Lexer) :
    (Lexer.scanWhile isspace l.remaining "" l).2 = l.skipped := by
  cases l with
  | mk src pos =>
    show (Lexer.scanWhile isspace (src.length - pos) "" ⟨src, pos⟩).2 = _
    rw [Lexer.scanWhile_eq isspace _ "" src pos rfl]
    rfl

/-- The text unread after the whitespace. -/
theorem Lexer.skipped_drop (l : Lexer) :
    l.source.drop l.afterSpaces = (l.source.drop l.pos).dropWhile isspace := by
  unfold Lexer.afterSpaces
  rw [← List.drop_drop, drop_length_takeWhile]

/-- Lookup in the keyword table. -/
theorem count_KEYWORDS (s : String) :
    count KEYWORDS s ≠ 0 ↔ (s = "int" ∨ s = "if" ∨ s = "then" ∨ s = "else") := by
  constructor
  · intro h
    by_contra hne
    push_neg at hne
    apply h
    simp [count, KEYWORDS, Ne.symm hne.1, Ne.symm hne.2.1, Ne.symm hne.2.2.1, Ne.symm hne.2.2.2]
  · rintro (rfl | rfl | rfl | rfl) <;> decide

/-- One-character strings are equal when the characters are. -/
theorem singleton_eq_iff (c d : Char) : String.singleton c = String.singleton d ↔ c = d := by
  constructor
  · intro h
    have := congrArg String.data h
    simpa [String.singleton, String.push] using this
  · rintro rfl; rfl

/-- Lookup of a one-character string in the operator table. -/
theorem count_OPERATORS_singleton (c : Char) :
    count OPERATORS (String.singleton c) ≠ 0 ↔ (c = '+' ∨ c = '-' ∨ c = '=') := by
  constructor
  · intro h
    by_contra hne
    push_neg at hne
    apply h
    have h1 : "+" ≠ String.singleton c := fun e => hne.1 ((singleton_eq_iff _ _).1 e.symm)
    have h2 : "-" ≠ String.singleton c := fun e => hne.2.1 ((singleton_eq_iff _ _).1 e.symm)
    have h3 : "=" ≠ String.singleton c := fun e => hne.2.2 ((singleton_eq_iff _ _).1 e.symm)
    have h4 : "==" ≠ String.singleton c := by
      intro e
      have := congrArg String.length e
      simp [String.singleton, String.push, String.length] at this
    simp [count, OPERATORS, h1, h2, h3, h4]
  · rintro (rfl | rfl | rfl) <;> decide

/-- The body of `nextToken` with the three loops replaced by their results. -/
theorem Lexer.nextToken_unfold (l : Lexer) :
    l.nextToken =
      if isalpha l.skipped.peek then
        .ok (⟨if count KEYWORDS ⟨(l.source.drop l.afterSpaces).takeWhile isalnum⟩ ≠ 0
              then .KEYWORD else .IDENTIFIER,
            ⟨(l.source.drop l.afterSpaces).takeWhile isalnum⟩⟩,
          ⟨l.source, l.afterSpaces + ((l.source.drop l.afterSpaces).takeWhile isalnum).length⟩)
      else if isdigit l.skipped.peek then
        .ok (⟨.NUMBER, ⟨(l.source.drop l.afterSpaces).takeWhile isdigit⟩⟩,
          ⟨l.source, l.afterSpaces + ((l.source.drop l.afterSpaces).takeWhile isdigit).length⟩)
      else if count OPERATORS (String.singleton l.skipped.peek) ≠ 0 then
        if l.skipped.advance.2.peek = '=' ∧ String.singleton l.skipped.advance.1 = "=" then
          .ok (⟨.OPERATOR, (String.singleton l.skipped.advance.1).push
              l.skipped.advance.2.advance.1⟩, l.skipped.advance.2.advance.2)
        else .ok (⟨.OPERATOR, String.singleton l.skipped.advance.1⟩, l.skipped.advance.2)
      else if l.skipped.peek = ';' ∨ l.skipped.peek = '(' ∨ l.skipped.peek = ')' then
        .ok (⟨.SYMBOL, String.singleton l.skipped.advance.1⟩, l.skipped.advance.2)
      else if l.skipped.peek = NUL then .ok (⟨.END_OF_FILE, ""⟩, l.skipped)
      else .error "Unknown token" := by
  unfold Lexer.nextToken
  simp only [Lexer.skip_eq]
  have hscan : ∀ pred, Lexer.scanWhile pred l.skipped.remaining "" l.skipped =
      (⟨(l.source.drop l.afterSpaces).takeWhile pred⟩,
        ⟨l.source, l.afterSpaces + ((l.source.drop l.afterSpaces).takeWhile pred).length⟩) := by
    intro pred
    have := Lexer.scanWhile_eq pred _ "" l.source l.afterSpaces rfl
    simpa [Lexer.skipped, Lexer.remaining] using this
  simp only [hscan]
  split_ifs <;> rfl

/-- Inside the source `advance` returns the current character and moves on by one. -/
theorem Lexer.advance_of_peek_ne_NUL (l : Lexer) (h : l.peek ≠ NUL) :
    l.advance = (l.peek, ⟨l.source, l.pos + 1⟩) := by
  unfold Lexer.peek at h ⊢
  unfold Lexer.advance
  split
  · rfl
  · next hlt => simp [hlt] at h

/-- The character after the whitespace. -/
theorem Lexer.skipped_peek (l : Lexer) :
    l.skipped.peek = ((l.source.drop l.pos).dropWhile isspace).headD NUL := by
  rw [Lexer.peek_eq_headD]
  show (l.source.drop l.afterSpaces).headD NUL = _
  rw [Lexer.skipped_drop]

/-- The head of what `dropWhile` leaves fails the predicate. -/
theorem headD_dropWhile_false (p : Char → Bool) (xs : List Char) (hN : p NUL = false) :
    p ((xs.dropWhile p).headD NUL) = false := by
  induction xs with
  | nil => simpa using hN
  | cons x xs ih =>
    by_cases hx : p x = true
    · simpa [List.dropWhile_cons, hx] using ih
    · simp [List.dropWhile_cons, hx]

/-- The whitespace loop stops on a character that is not whitespace. -/
theorem Lexer.isspace_skipped_peek (l : Lexer) : isspace l.skipped.peek = false := by
  rw [Lexer.skipped_peek]
  exact headD_dropWhile_false isspace _ (by decide)

/-- The character after a maximal run fails the predicate of the run. -/
theorem Lexer.peek_after_run (pred : Char → Bool) (hN : pred NUL = false) (src : List Char)
    (start : Nat) :
    pred (Lexer.peek ⟨src, start + ((src.drop start).takeWhile pred).length⟩) = false := by
  rw [Lexer.peek_eq_headD]
  show pred ((src.drop (start + ((src.drop start).takeWhile pred).length)).headD NUL) = false
  rw [← List.drop_drop, drop_length_takeWhile]
  exact headD_dropWhile_false pred _ hN

/-- Skipping whitespace twice is skipping it once. -/
theorem Lexer.skipped_skipped (l : Lexer) : l.skipped.skipped = l.skipped := by
  have h := Lexer.isspace_skipped_peek l
  rw [Lexer.peek_eq_headD] at h
  show (⟨l.skipped.source, l.skipped.pos +
    ((l.skipped.source.drop l.skipped.pos).takeWhile isspace).length⟩ : Lexer) = l.skipped
  cases hd : l.skipped.source.drop l.skipped.pos with
  | nil => simp
  | cons x xs =>
    rw [hd] at h
    simp at h
    simp [List.takeWhile_cons, h]

/-- A maximal run is a prefix of the text from its start, consists of characters of the class, and is followed by none. -/
theorem maximalRun_spec (pred : Char → Bool) (src : List Char) (start : Nat) :
    src.drop start = maximalRun pred src start ++ src.drop (start + (maximalRun pred src start).length)
    ∧ (∀ c ∈ maximalRun pred src start, pred c = true)
    ∧ (∀ c rest, src.drop (start + (maximalRun pred src start).length) = c :: rest → pred c = false) := by
  unfold maximalRun
  refine ⟨?_, ?_, ?_⟩
  · rw [← List.drop_drop, drop_length_takeWhile, List.takeWhile_append_dropWhile]
  · intro c hc
    exact List.mem_takeWhile_imp hc
  · intro c rest h
    rw [← List.drop_drop, drop_length_takeWhile] at h
    have := List.head_dropWhile_not pred (src.drop start) (by rw [h]; simp)
    simpa [h] using this

/-- A digit is not a letter. -/
theorem isalpha_false_of_isdigit (c : Char) (h : isdigit c = true) : isalpha c = false := by
  simp only [isdigit, isalpha, Bool.and_eq_true, Bool.or_eq_false_iff, Bool.and_eq_false_iff,
    decide_eq_true_eq, decide_eq_false_iff_not] at h ⊢
  omega

/-- The operator branch of `nextToken`. -/
theorem Lexer.nextToken_operator (l : Lexer)
    (h : l.skipped.peek = '+' ∨ l.skipped.peek = '-' ∨ l.skipped.peek = '=') :
    l.nextToken =
      if l.skipped.peek = '=' ∧ Lexer.peek ⟨l.source, l.afterSpaces + 1⟩ = '=' then
        .ok (⟨.OPERATOR, "=="⟩, ⟨l.source, l.afterSpaces + 2⟩)
      else .ok (⟨.OPERATOR, String.singleton l.skipped.peek⟩, ⟨l.source, l.afterSpaces + 1⟩) := by
  have hα : isalpha l.skipped.peek = false := by rcases h with h | h | h <;> rw [h] <;> decide
  have hδ : isdigit l.skipped.peek = false := by rcases h with h | h | h <;> rw [h] <;> decide
  have hN : l.skipped.peek ≠ NUL := by rcases h with h | h | h <;> rw [h] <;> decide
  have hadv : l.skipped.advance = (l.skipped.peek, ⟨l.source, l.afterSpaces + 1⟩) :=
    Lexer.advance_of_peek_ne_NUL _ hN
  rw [Lexer.nextToken_unfold, if_neg (by simp [hα]), if_neg (by simp [hδ]),
    if_pos ((count_OPERATORS_singleton _).2 h), hadv]
  simp only []
  by_cases h2 : l.skipped.peek = '=' ∧ Lexer.peek ⟨l.source, l.afterSpaces + 1⟩ = '='
  · have hN2 : Lexer.peek ⟨l.source, l.afterSpaces + 1⟩ ≠ NUL := by rw [h2.2]; decide
    rw [if_pos h2, if_pos ⟨h2.2, by rw [h2.1]; rfl⟩, Lexer.advance_of_peek_ne_NUL _ hN2, h2.1, h2.2]
    rfl
  · rw [if_neg h2, if_neg]
    rintro ⟨h3, h4⟩
    exact h2 ⟨(singleton_eq_iff _ _).1 h4, h3⟩

/-- END_OF_FILE is returned exactly when the character after the whitespace is `NUL`. -/
theorem Lexer.nextToken_eof_iff (l : Lexer) (tok : Token) (l' : Lexer) :
    (l.nextToken = .ok (tok, l') ∧ tok.type = .END_OF_FILE) ↔
      (l.skipped.peek = NUL ∧ tok = ⟨.END_OF_FILE, ""⟩ ∧ l' = l.skipped) := by
  rw [Lexer.nextToken_unfold]
  constructor
  · rintro ⟨h, ht⟩
    split_ifs at h with h1 h2 h3 h4 h5 h6 h7 <;>
      simp only [Except.ok.injEq, Prod.mk.injEq, reduceCtorEq] at h
    · obtain ⟨rfl, -⟩ := h; simp at ht
    · obtain ⟨rfl, -⟩ := h; simp at ht
    · obtain ⟨rfl, -⟩ := h; simp at ht
    · obtain ⟨rfl, -⟩ := h; simp at ht
    · obtain ⟨rfl, -⟩ := h; simp at ht
    · obtain ⟨rfl, -⟩ := h; simp at ht
    · obtain ⟨rfl, rfl⟩ := h; exact ⟨h7, rfl, rfl⟩
  · rintro ⟨h, rfl, rfl⟩
    have h1 : ¬ isalpha l.skipped.peek = true := by rw [h]; decide
    have h2 : ¬ isdigit l.skipped.peek = true := by rw [h]; decide
    have h3 : ¬ count OPERATORS (String.singleton l.skipped.peek) ≠ 0 := by rw [h]; decide
    have h4 : ¬ (l.skipped.peek = ';' ∨ l.skipped.peek = '(' ∨ l.skipped.peek = ')') := by
      rw [h]; decide
    rw [if_neg h1, if_neg h2, if_neg h3, if_neg h4, if_pos h]
    exact ⟨rfl, rfl⟩

/-- At a `NUL` after the whitespace a further call returns END_OF_FILE in place. -/
theorem Lexer.nextToken_skipped_of_NUL (l : Lexer) (h : l.skipped.peek = NUL) :
    l.skipped.nextToken = .ok (⟨.END_OF_FILE, ""⟩, l.skipped) := by
  have := (Lexer.nextToken_eof_iff l.skipped ⟨.END_OF_FILE, ""⟩ l.skipped).2
    ⟨by rw [Lexer.skipped_skipped]; exact h, rfl, by rw [Lexer.skipped_skipped]⟩
  exact this.1

/-- A call that returns its own state returns the same on every later call. -/
theorem Lexer.callAfter_fixed (l : Lexer) (tok : Token) (h : l.nextToken = .ok (tok, l)) :
    ∀ n, Lexer.callAfter n l = .ok (tok, l) := by
  intro n
  induction n with
  | zero => exact h
  | succ n ih => rw [Lexer.callAfter, h]; exact ih

/-- In a source of whitespace only the whitespace loop runs to the end. -/
theorem skipped_peek_of_all_space (l : Lexer) (hws : ∀ c ∈ l.source, isspace c = true) :
    l.skipped.peek = NUL := by
  rw [Lexer.skipped_peek]
  have : (l.source.drop l.pos).dropWhile isspace = [] := by
    rw [List.dropWhile_eq_nil_iff]
    intro c hc
    exact hws c (List.mem_of_mem_drop hc)
  rw [this]; rfl

/-- Past the end `peek` is `NUL`. -/
theorem Lexer.peek_of_length_le (l : Lexer) (h : l.source.length ≤ l.pos) : l.peek = NUL := by
  unfold Lexer.peek
  rw [dif_neg (by omega)]

/-- The only error of `nextToken` and the condition under which it is thrown. -/
theorem Lexer.nextToken_error_iff (l : Lexer) (msg : String) :
    l.nextToken = .error msg ↔
      (msg = "Unknown token" ∧ isalpha l.skipped.peek = false ∧ isdigit l.skipped.peek = false ∧
        l.skipped.peek ≠ '+' ∧ l.skipped.peek ≠ '-' ∧ l.skipped.peek ≠ '=' ∧
        l.skipped.peek ≠ ';' ∧ l.skipped.peek ≠ '(' ∧ l.skipped.peek ≠ ')' ∧
        l.skipped.peek ≠ NUL) := by
  rw [Lexer.nextToken_unfold]
  constructor
  · intro h
    split_ifs at h with h1 h2 h3 h4 h5 h6
    cases h
    rw [count_OPERATORS_singleton] at h3
    push_neg at h3 h5
    exact ⟨rfl, by simpa using h1, by simpa using h2, h3.1, h3.2.1, h3.2.2, h5.1, h5.2.1,
      h5.2.2, h6⟩
  · rintro ⟨rfl, h1, h2, h3, h4, h5, h6, h7, h8, h9⟩
    have hop : ¬ count OPERATORS (String.singleton l.skipped.peek) ≠ 0 := by
      rw [count_OPERATORS_singleton]; push_neg; exact ⟨h3, h4, h5⟩
    rw [if_neg (by simp [h1]), if_neg (by simp [h2]), if_neg hop,
      if_neg (by push_neg; exact ⟨h6, h7, h8⟩), if_neg h9]

/-- A run followed by a character outside the class is what `takeWhile` takes. -/
theorem takeWhile_run (p : Char → Bool) (w rest : List Char) (hw : ∀ c ∈ w, p c = true)
    (hrest : p (rest.headD NUL) = false) :
    (w ++ rest).takeWhile p = w := by
  rw [List.takeWhile_append_of_pos hw]
  cases rest with
  | nil => simp
  | cons c t =>
    have : p c = false := by simpa using hrest
    simp [List.takeWhile_cons, this]

/-- Position and character after the whitespace, for a source split at the cursor. -/
theorem Lexer.skipped_at (l : Lexer) (pre sp tail : List Char)
    (hsrc : l.source = pre ++ sp ++ tail) (hpos : l.pos = pre.length)
    (hsp : ∀ c ∈ sp, isspace c = true) (htail : isspace (tail.headD NUL) = false) :
    l.afterSpaces = l.pos + sp.length ∧ l.source.drop l.afterSpaces = tail ∧
      l.skipped.peek = tail.headD NUL := by
  have hd : l.source.drop l.pos = sp ++ tail := by
    rw [hsrc, hpos, List.append_assoc, List.drop_left]
  have htw : (l.source.drop l.pos).takeWhile isspace = sp := by
    rw [hd]; exact takeWhile_run isspace sp tail hsp htail
  have ha : l.afterSpaces = l.pos + sp.length := by
    unfold Lexer.afterSpaces; rw [htw]
  have hdrop : l.source.drop l.afterSpaces = tail := by
    rw [ha, ← List.drop_drop, hd, List.drop_left]
  refine ⟨ha, hdrop, ?_⟩
  rw [Lexer.peek_eq_headD]
  show (l.source.drop l.afterSpaces).headD NUL = _
  rw [hdrop]

/-- The token of a word that follows the cursor and some whitespace. -/
theorem Lexer.nextToken_word_at (l : Lexer) (pre sp w rest : List Char) (c : Char) (w' : List Char)
    (hsrc : l.source = pre ++ sp ++ (w ++ rest)) (hpos : l.pos = pre.length)
    (hsp : ∀ c ∈ sp, isspace c = true) (hw : w = c :: w') (hc : isalpha c = true)
    (hall : ∀ c ∈ w, isalnum c = true) (hrest : isalnum (rest.headD NUL) = false) :
    l.nextToken = .ok (⟨if count KEYWORDS ⟨w⟩ ≠ 0 then .KEYWORD else .IDENTIFIER, ⟨w⟩⟩,
      ⟨l.source, l.pos + sp.length + w.length⟩) := by
  have hhead : (w ++ rest).headD NUL = c := by rw [hw]; rfl
  have hns : isspace ((w ++ rest).headD NUL) = false := by
    rw [hhead]
    simp only [isspace, isalpha, Bool.and_eq_true, Bool.or_eq_true, Bool.or_eq_false_iff,
      Bool.and_eq_false_iff, decide_eq_true_eq, decide_eq_false_iff_not, beq_eq_false_iff_ne,
      ne_eq] at hc ⊢
    omega
  obtain ⟨ha, hdrop, hpeek⟩ := Lexer.skipped_at l pre sp (w ++ rest) hsrc hpos hsp hns
  rw [Lexer.nextToken_unfold, hpeek, hhead, if_pos hc, hdrop,
    takeWhile_run isalnum w rest hall hrest, ha]

/-- The token of a digit run that follows the cursor and some whitespace. -/
theorem Lexer.nextToken_number_at (l : Lexer) (pre sp w rest : List Char) (c : Char)
    (w' : List Char)
    (hsrc : l.source = pre ++ sp ++ (w ++ rest)) (hpos : l.pos = pre.length)
    (hsp : ∀ c ∈ sp, isspace c = true) (hw : w = c :: w')
    (hall : ∀ c ∈ w, isdigit c = true) (hrest : isdigit (rest.headD NUL) = false) :
    l.nextToken = .ok (⟨.NUMBER, ⟨w⟩⟩, ⟨l.source, l.pos + sp.length + w.length⟩) := by
  have hhead : (w ++ rest).headD NUL = c := by rw [hw]; rfl
  have hc : isdigit c = true := hall c (by rw [hw]; simp)
  have hns : isspace ((w ++ rest).headD NUL) = false := by
    rw [hhead]
    simp only [isspace, isdigit, Bool.and_eq_true, Bool.or_eq_true, Bool.or_eq_false_iff,
      Bool.and_eq_false_iff, decide_eq_true_eq, decide_eq_false_iff_not, beq_eq_false_iff_ne,
      ne_eq] at hc ⊢
    omega
  obtain ⟨ha, hdrop, hpeek⟩ := Lexer.skipped_at l pre sp (w ++ rest) hsrc hpos hsp hns
  rw [Lexer.nextToken_unfold, hpeek, hhead, if_neg (by simp [isalpha_false_of_isdigit c hc]),
    if_pos hc, hdrop, takeWhile_run isdigit w rest hall hrest, ha]

/-- The token of a symbol that follows the cursor and some whitespace. -/
theorem Lexer.nextToken_symbol_at (l : Lexer) (pre sp rest : List Char) (c : Char)
    (hsrc : l.source = pre ++ sp ++ (c :: rest)) (hpos : l.pos = pre.length)
    (hsp : ∀ c ∈ sp, isspace c = true) (hc : c = ';' ∨ c = '(' ∨ c = ')') :
    l.nextToken = .ok (⟨.SYMBOL, String.singleton c⟩, ⟨l.source, l.pos + sp.length + 1⟩) := by
  have hns : isspace ((c :: rest).headD NUL) = false := by
    show isspace c = false
    rcases hc with h | h | h <;> rw [h] <;> decide
  obtain ⟨ha, -, hpeek⟩ := Lexer.skipped_at l pre sp (c :: rest) hsrc hpos hsp hns
  have hpeek' : l.skipped.peek = c := hpeek
  have hN : l.skipped.peek ≠ NUL := by
    rw [hpeek']; rcases hc with h | h | h <;> rw [h] <;> decide
  have h1 : ¬ isalpha c = true := by rcases hc with h | h | h <;> rw [h] <;> decide
  have h2 : ¬ isdigit c = true := by rcases hc with h | h | h <;> rw [h] <;> decide
  have h3 : ¬ count OPERATORS (String.singleton c) ≠ 0 := by
    rcases hc with h | h | h <;> rw [h] <;> decide
  rw [Lexer.nextToken_unfold, Lexer.advance_of_peek_ne_NUL _ hN, hpeek', if_neg h1, if_neg h2,
    if_neg h3, if_pos hc]
  show Except.ok (_, (⟨l.source, l.afterSpaces + 1⟩ : Lexer)) = _
  rw [ha]

/-- The token at the end of the source, after some whitespace. -/
theorem Lexer.nextToken_end_at (l : Lexer) (pre sp : List Char)
    (hsrc : l.source = pre ++ sp) (hpos : l.pos = pre.length)
    (hsp : ∀ c ∈ sp, isspace c = true) :
    l.nextToken = .ok (⟨.END_OF_FILE, ""⟩, ⟨l.source, l.pos + sp.length⟩) := by
  obtain ⟨ha, -, hpeek⟩ := Lexer.skipped_at l pre sp [] (by simpa using hsrc) hpos hsp
    (by decide)
  have := ((Lexer.nextToken_eof_iff l ⟨.END_OF_FILE, ""⟩ l.skipped).2 ⟨hpeek, rfl, rfl⟩).1
  rw [this]
  show Except.ok (_, (⟨l.source, l.afterSpaces⟩ : Lexer)) = _
  rw [ha]

/-- A keyword followed by a NUMBER is sent to the assignment rule, which rejects the NUMBER. -/
theorem Parser.parse_int_number (n : String) (rest : List Token) (h1 : n ≠ "int")
    (h2 : n ≠ "if") :
    Parser.parse ⟨⟨.KEYWORD, "int"⟩ :: ⟨.NUMBER, n⟩ :: ⟨.SYMBOL, ";"⟩ :: rest, 0⟩
      = .error "Expected variable name for assignment" := by
  simp [Parser.parse, Parser.parseLoop, Parser.parseStatement, Parser.match_, Parser.peek,
    Parser.advance, Parser.parseAssignment, h1, h2]

/-- The element at the length of the prefix. -/
theorem getElem_append_cons_length (pre : List Token) (t : Token) (rest : List Token)
    (h : pre.length < (pre ++ t :: rest).length) : (pre ++ t :: rest)[pre.length] = t := by
  rw [List.getElem_append_right (Nat.le_refl _)]
  simp

/-- The current token when the cursor stands after a prefix. -/
theorem Parser.peek_at (pre : List Token) (t : Token) (rest : List Token) :
    Parser.peek ⟨pre ++ t :: rest, pre.length⟩ = t := by
  simp [Parser.peek, getElem_append_cons_length]

/-- The step of `advance` when the cursor stands after a prefix. -/
theorem Parser.advance_at (pre : List Token) (t : Token) (rest : List Token) :
    Parser.advance ⟨pre ++ t :: rest, pre.length⟩ = (t, ⟨pre ++ t :: rest, pre.length + 1⟩) := by
  simp [Parser.advance, getElem_append_cons_length]

/-- The kind of the current token when the next token, if any, is of another kind. -/
theorem Parser.peek_type_at (pre post : List Token) (ty : TokenType)
    (hpost : post.head?.map Token.type ≠ some ty) (hty : ty ≠ .END_OF_FILE) :
    (Parser.peek ⟨pre ++ post, pre.length⟩).type ≠ ty := by
  cases post with
  | nil => simpa [Parser.peek] using hty.symm
  | cons t rest =>
    rw [Parser.peek_at]
    simpa using hpost

/-- A chain of `k` operands is parsed with fuel `k` into its right-nested tree. -/
theorem Parser.parseExpressionAux_chain (chain : List (Token × Token)) :
    ∀ (n : Token) (pre post : List Token) (fuel : Nat),
      n.type = .NUMBER →
      (∀ pr ∈ chain, pr.1.type = .OPERATOR ∧ pr.2.type = .NUMBER) →
      post.head?.map Token.type ≠ some .OPERATOR →
      chain.length + 1 ≤ fuel →
      Parser.parseExpressionAux fuel ⟨pre ++ chainTokens n chain ++ post, pre.length⟩ =
        .ok (chainTree n chain,
          ⟨pre ++ chainTokens n chain ++ post, pre.length + (2 * chain.length + 1)⟩) := by
  induction chain with
  | nil =>
    intro n pre post fuel hn _ hpost hfuel
    obtain ⟨f, rfl⟩ : ∃ f, fuel = f + 1 := ⟨fuel - 1, by simp at hfuel; omega⟩
    have hts : pre ++ chainTokens n [] ++ post = pre ++ n :: post := by simp [chainTokens]
    rw [hts, Parser.parseExpressionAux, Parser.advance_at]
    have hpk : (Parser.peek ⟨pre ++ n :: post, pre.length + 1⟩).type ≠ .OPERATOR := by
      have := Parser.peek_type_at (pre ++ [n]) post .OPERATOR hpost (by decide)
      simpa using this
    simp [hn, hpk, chainTree]
  | cons pr chain ih =>
    intro n pre post fuel hn hchain hpost hfuel
    obtain ⟨o, n'⟩ := pr
    obtain ⟨f, rfl⟩ : ∃ f, fuel = f + 1 := ⟨fuel - 1, by simp at hfuel; omega⟩
    have ho : o.type = .OPERATOR := (hchain (o, n') (by simp)).1
    have hn' : n'.type = .NUMBER := (hchain (o, n') (by simp)).2
    have hts : pre ++ chainTokens n ((o, n') :: chain) ++ post
        = pre ++ n :: (o :: (chainTokens n' chain ++ post)) := by
      simp [chainTokens]
    have hts1 : pre ++ n :: (o :: (chainTokens n' chain ++ post))
        = (pre ++ [n]) ++ o :: (chainTokens n' chain ++ post) := by simp
    have hts2 : pre ++ n :: (o :: (chainTokens n' chain ++ post))
        = (pre ++ [n, o]) ++ chainTokens n' chain ++ post := by simp
    have hpk : Parser.peek ⟨pre ++ n :: (o :: (chainTokens n' chain ++ post)), pre.length + 1⟩
        = o := by
      have := Parser.peek_at (pre ++ [n]) o (chainTokens n' chain ++ post)
      simpa using this
    have hadv : Parser.advance
        ⟨pre ++ n :: (o :: (chainTokens n' chain ++ post)), pre.length + 1⟩
        = (o, ⟨pre ++ n :: (o :: (chainTokens n' chain ++ post)), pre.length + 1 + 1⟩) := by
      have := Parser.advance_at (pre ++ [n]) o (chainTokens n' chain ++ post)
      simpa using this
    have hrec := ih n' (pre ++ [n, o]) post f hn'
      (fun pr hpr => hchain pr (List.mem_cons_of_mem _ hpr)) hpost
      (by simp at hfuel; omega)
    rw [← hts2] at hrec
    have hlen : (pre ++ [n, o]).length = pre.length + 1 + 1 := by simp
    rw [hlen] at hrec
    rw [hts, Parser.parseExpressionAux, Parser.advance_at]
    simp only [hn, hpk, ho, hadv, hrec, ne_eq, not_true_eq_false, if_false, if_true, chainTree]
    simp only [List.length_cons]
    congr 3
    omega

/-- A chain of `k` operands has `2k - 1` tokens. -/
theorem chainTokens_length (n : Token) (chain : List (Token × Token)) :
    (chainTokens n chain).length = 2 * chain.length + 1 := by
  unfold chainTokens
  induction chain with
  | nil => rfl
  | cons pr chain ih =>
    simp only [List.flatMap_cons, List.length_cons, List.length_append, List.length_nil] at ih ⊢
    omega

/-- A digit run differs from every text that does not start with a digit. -/
theorem mk_digits_ne (ds : List Char) (hne : ds ≠ []) (hd : ∀ c ∈ ds, isdigit c = true)
    (w : List Char) (hw : isdigit (w.headD NUL) = false) : String.mk ds ≠ String.mk w := by
  intro h
  injection h with h
  subst h
  cases ds with
  | nil => exact hne rfl
  | cons d ds =>
    have := hd d (by simp)
    simp [this] at hw

/-- One step of the driver on a token other than END_OF_FILE. -/
theorem Lexer.tokenizeAux_cons (fuel : Nat) (l l' : Lexer) (tok : Token) (toks : List Token)
    (h : l.nextToken = .ok (tok, l')) (ht : tok.type ≠ .END_OF_FILE)
    (hrest : Lexer.tokenizeAux fuel l' = .ok toks) :
    Lexer.tokenizeAux (fuel + 1) l = .ok (tok :: toks) := by
  rw [Lexer.tokenizeAux, h]
  simp only [if_neg ht, hrest]

/-- The last step of the driver. -/
theorem Lexer.tokenizeAux_end (fuel : Nat) (l l' : Lexer) (tok : Token)
    (h : l.nextToken = .ok (tok, l')) (ht : tok.type = .END_OF_FILE) :
    Lexer.tokenizeAux (fuel + 1) l = .ok [] := by
  rw [Lexer.tokenizeAux, h]
  simp only [if_pos ht]

/-- The tokens of `int n;` for a digit run `n`. -/
theorem tokenize_int_number (ds : List Char) (hne : ds ≠ []) (hd : ∀ c ∈ ds, isdigit c = true) :
    tokenize ("int ".toList ++ ds ++ [';']) =
      .ok [⟨.KEYWORD, "int"⟩, ⟨.NUMBER, String.mk ds⟩, ⟨.SYMBOL, ";"⟩] := by
  obtain ⟨d, ds', hds⟩ : ∃ d ds', ds = d :: ds' := by
    cases ds with
    | nil => exact absurd rfl hne
    | cons d ds' => exact ⟨d, ds', rfl⟩
  have hint : "int ".toList = ['i', 'n', 't', ' '] := rfl
  have hsemi : isdigit ([';'].headD NUL) = false := by decide
  have h1 : Lexer.nextToken ⟨"int ".toList ++ ds ++ [';'], 0⟩ =
      .ok (⟨.KEYWORD, "int"⟩, ⟨"int ".toList ++ ds ++ [';'], 3⟩) :=
    Lexer.nextToken_word_at ⟨"int ".toList ++ ds ++ [';'], 0⟩ [] [] ['i', 'n', 't']
      (' ' :: (ds ++ [';'])) 'i' ['n', 't'] (by simp [hint]) rfl (by simp) rfl (by decide)
      (by decide) (by show isalnum ' ' = false; decide)
  have h2 : Lexer.nextToken ⟨"int ".toList ++ ds ++ [';'], 3⟩ =
      .ok (⟨.NUMBER, String.mk ds⟩, ⟨"int ".toList ++ ds ++ [';'], 4 + ds.length⟩) :=
    Lexer.nextToken_number_at ⟨"int ".toList ++ ds ++ [';'], 3⟩ ['i', 'n', 't'] [' ']
      ds [';'] d ds' (by simp [hint]) rfl (by decide) hds hd hsemi
  have h3 : Lexer.nextToken ⟨"int ".toList ++ ds ++ [';'], 4 + ds.length⟩ =
      .ok (⟨.SYMBOL, ";"⟩, ⟨"int ".toList ++ ds ++ [';'], 4 + ds.length + 1⟩) :=
    Lexer.nextToken_symbol_at ⟨"int ".toList ++ ds ++ [';'], 4 + ds.length⟩
      ("int ".toList ++ ds) [] [] ';' (by simp) (by simp [hint]; omega) (by simp) (Or.inl rfl)
  have h4 : Lexer.nextToken ⟨"int ".toList ++ ds ++ [';'], 4 + ds.length + 1⟩ =
      .ok (⟨.END_OF_FILE, ""⟩, ⟨"int ".toList ++ ds ++ [';'], 4 + ds.length + 1⟩) :=
    Lexer.nextToken_end_at ⟨"int ".toList ++ ds ++ [';'], 4 + ds.length + 1⟩
      ("int ".toList ++ ds ++ [';']) [] (by simp) (by simp [hint]; omega) (by simp)
  have hfuel : ("int ".toList ++ ds ++ [';']).length + 1 = ds.length + 2 + 1 + 1 + 1 + 1 := by
    simp [hint]
  unfold tokenize
  rw [hfuel]
  exact Lexer.tokenizeAux_cons _ _ _ _ _ h1 (by decide)
    (Lexer.tokenizeAux_cons _ _ _ _ _ h2 (by simp)
      (Lexer.tokenizeAux_cons _ _ _ _ _ h3 (by decide)
        (Lexer.tokenizeAux_end _ _ _ _ h4 rfl)))

/-! ## Lemmas on progress, fuel and tree shape -/

/-- The body of `parseAssignment` written with projections of the intermediate states. -/
theorem Parser.parseAssignment_eq (p : Parser) :
    p.parseAssignment =
      if p.advance.1.type ≠ .IDENTIFIER then .error "Expected variable name for assignment"
      else if (!(p.advance.2.match_ .OPERATOR).1 ||
          decide ((p.advance.2.match_ .OPERATOR).2.peek.value ≠ "=")) = true
        then .error "Expected '=' in assignment"
      else
        match (p.advance.2.match_ .OPERATOR).2.advance.2.parseExpression with
        | .error msg => .error msg
        | .fuelOut => .fuelOut
        | .ok (expr, q) =>
          if (!(q.match_ .SYMBOL).1 || decide ((q.match_ .SYMBOL).2.peek.value ≠ ";")) = true
            then .error "Expected ';' after assignment"
          else .ok (ASTNode.mk .ASSIGNMENT p.advance.1.value [expr],
            (q.match_ .SYMBOL).2.advance.2) := by
  unfold Parser.parseAssignment
  rcases p.advance with ⟨a, p1⟩
  rfl

/-- The body of `parseDeclaration` written with projections of the intermediate states. -/
theorem Parser.parseDeclaration_eq (p : Parser) :
    p.parseDeclaration =
      if p.advance.2.advance.1.type ≠ .IDENTIFIER then .error "Expected variable name after 'int'"
      else if (!(p.advance.2.advance.2.match_ .SYMBOL).1 ||
          decide ((p.advance.2.advance.2.match_ .SYMBOL).2.peek.value ≠ ";")) = true
        then .error "Expected ';' after variable declaration"
      else .ok (ASTNode.mk .DECLARATION p.advance.2.advance.1.value [],
        (p.advance.2.advance.2.match_ .SYMBOL).2.advance.2) := by
  unfold Parser.parseDeclaration
  dsimp only

/-- One unfolding of `parseExpressionAux`. -/
theorem Parser.parseExpressionAux_succ (fuel : Nat) (p : Parser) :
    Parser.parseExpressionAux (fuel + 1) p =
      if p.advance.1.type ≠ .NUMBER then .error "Expected a number in expression"
      else if p.advance.2.peek.type = .OPERATOR then
        match Parser.parseExpressionAux fuel p.advance.2.advance.2 with
        | .ok (right, q) => .ok (ASTNode.mk .EXPRESSION p.advance.2.advance.1.value
            [ASTNode.mk .EXPRESSION p.advance.1.value [], right], q)
        | .error msg => .error msg
        | .fuelOut => .fuelOut
      else .ok (ASTNode.mk .EXPRESSION p.advance.1.value [], p.advance.2) := by
  rw [Parser.parseExpressionAux]

/-- One unfolding of `parseStatement`. -/
theorem Parser.parseStatement_succ (fuel : Nat) (p : Parser) :
    Parser.parseStatement (fuel + 1) p =
      if (p.match_ .KEYWORD).1 = true then
        if (p.match_ .KEYWORD).2.peek.value = "int" then (p.match_ .KEYWORD).2.parseDeclaration
        else if (p.match_ .KEYWORD).2.peek.value = "if" then
          Parser.parseConditional fuel (p.match_ .KEYWORD).2
        else (p.match_ .KEYWORD).2.parseAssignment
      else (p.match_ .KEYWORD).2.parseAssignment := by
  rw [Parser.parseStatement]

/-- One unfolding of `parseConditional`. -/
theorem Parser.parseConditional_succ (fuel : Nat) (p : Parser) :
    Parser.parseConditional (fuel + 1) p =
      match p.advance.2.parseExpression with
      | .error msg => .error msg
      | .fuelOut => .fuelOut
      | .ok (condition, q) =>
        if (!(q.match_ .KEYWORD).1 || decide ((q.match_ .KEYWORD).2.peek.value ≠ "then")) = true
          then .error "Expected 'then' after condition"
        else
          match Parser.parseStatement fuel (q.match_ .KEYWORD).2.advance.2 with
          | .error msg => .error msg
          | .fuelOut => .fuelOut
          | .ok (thenBranch, r) =>
            if ((r.match_ .KEYWORD).1 && decide ((r.match_ .KEYWORD).2.peek.value = "else")) = true
            then
              match Parser.parseStatement fuel (r.match_ .KEYWORD).2.advance.2 with
              | .error msg => .error msg
              | .fuelOut => .fuelOut
              | .ok (elseBranch, s) =>
                .ok (ASTNode.mk .CONDITIONAL "if" [condition, thenBranch, elseBranch], s)
            else .ok (ASTNode.mk .CONDITIONAL "if" [condition, thenBranch], (r.match_ .KEYWORD).2) := by
  rw [Parser.parseConditional]

/-- One iteration of the loop of `parse`. -/
theorem Parser.parseLoop_succ (fuel : Nat) (p : Parser) (children : List ASTNode) :
    Parser.parseLoop (fuel + 1) p children =
      if p.peek.type ≠ .END_OF_FILE then
        match Parser.parseStatement (p.tokens.length - p.current + 2) p with
        | .error msg => .error msg
        | .fuelOut => .fuelOut
        | .ok (stmt, q) => Parser.parseLoop fuel q (children ++ [stmt])
      else .ok (ASTNode.mk .PROGRAM "" children, p) := by
  rw [Parser.parseLoop]

/-- The token returned by `advance` is the one `peek` shows. -/
theorem Parser.advance_fst (p : Parser) : p.advance.1 = p.peek := by
  unfold Parser.advance Parser.peek
  split <;> rfl

/-- The step of `advance` keeps the token sequence. -/
theorem Parser.advance_tokens (p : Parser) : p.advance.2.tokens = p.tokens := by
  unfold Parser.advance
  split <;> rfl

/-- The cursor after `advance`. -/
theorem Parser.advance_current (p : Parser) :
    p.advance.2.current = if p.current < p.tokens.length then p.current + 1 else p.current := by
  unfold Parser.advance
  split <;> rfl

/-- A current token of a kind other than END_OF_FILE lies inside the sequence. -/
theorem Parser.lt_of_peek_type (p : Parser) (h : p.peek.type ≠ .END_OF_FILE) :
    p.current < p.tokens.length := by
  by_contra hlt
  apply h
  unfold Parser.peek
  rw [dif_neg hlt]

/-- A current token of a kind other than END_OF_FILE is a token of the sequence. -/
theorem Parser.peek_mem (p : Parser) (h : p.peek.type ≠ .END_OF_FILE) : p.peek ∈ p.tokens := by
  have hlt := Parser.lt_of_peek_type p h
  unfold Parser.peek
  rw [dif_pos hlt]
  exact List.getElem_mem _

/-- The answer of `match`. -/
theorem Parser.match_fst (p : Parser) (ty : TokenType) :
    (p.match_ ty).1 = decide (p.peek.type = ty) := by
  unfold Parser.match_
  split <;> simp [*]

/-- The state after `match`. -/
theorem Parser.match_snd (p : Parser) (ty : TokenType) :
    (p.match_ ty).2 = if p.peek.type = ty then p.advance.2 else p := by
  unfold Parser.match_
  split <;> rfl

/-- The step of `match` keeps the token sequence. -/
theorem Parser.match_tokens (p : Parser) (ty : TokenType) : (p.match_ ty).2.tokens = p.tokens := by
  rw [Parser.match_snd]
  split
  · exact Parser.advance_tokens p
  · rfl

/-- Frame and cursor facts of one `advance`. -/
theorem Parser.advance_step (p : Parser) :
    p.advance.2.tokens = p.tokens ∧ p.current ≤ p.advance.2.current ∧
    (p.current ≤ p.tokens.length → p.advance.2.current ≤ p.tokens.length) ∧
    (p.advance.1.type ≠ .END_OF_FILE →
      p.current < p.tokens.length ∧ p.advance.2.current = p.current + 1) := by
  refine ⟨Parser.advance_tokens p, ?_, ?_, ?_⟩
  · rw [Parser.advance_current]; split <;> omega
  · rw [Parser.advance_current]; split <;> omega
  · intro h
    rw [Parser.advance_fst] at h
    have hlt := Parser.lt_of_peek_type p h
    rw [Parser.advance_current, if_pos hlt]
    exact ⟨hlt, rfl⟩

/-- Frame and cursor facts of one `match`. -/
theorem Parser.match_step (p : Parser) (ty : TokenType) :
    (p.match_ ty).2.tokens = p.tokens ∧ p.current ≤ (p.match_ ty).2.current ∧
    (p.current ≤ p.tokens.length → (p.match_ ty).2.current ≤ p.tokens.length) ∧
    ((p.match_ ty).1 = true → ty ≠ .END_OF_FILE →
      p.current < p.tokens.length ∧ (p.match_ ty).2.current = p.current + 1) := by
  have ha := Parser.advance_step p
  rw [Parser.match_fst, Parser.match_snd]
  by_cases h : p.peek.type = ty
  · simp only [h, if_true, decide_True, true_implies]
    refine ⟨ha.1, ha.2.1, ha.2.2.1, ?_⟩
    intro hty
    exact ha.2.2.2 (by rw [Parser.advance_fst, h]; exact hty)
  · simp [h]

/-- A successful expression keeps the tokens and moves the cursor forward, inside the sequence. -/
theorem Parser.parseExpressionAux_progress :
    ∀ (fuel : Nat) (p : Parser) (n : ASTNode) (p' : Parser),
      Parser.parseExpressionAux fuel p = .ok (n, p') →
      p'.tokens = p.tokens ∧ p.current < p'.current ∧ p'.current ≤ p.tokens.length := by
  intro fuel
  induction fuel with
  | zero => intro p n p' h; simp [Parser.parseExpressionAux] at h
  | succ f ih =>
    intro p n p' h
    rw [Parser.parseExpressionAux_succ] at h
    obtain ⟨a1, a2, a3, a4⟩ := Parser.advance_step p
    obtain ⟨b1, b2, b3, b4⟩ := Parser.advance_step p.advance.2
    split_ifs at h with h1 h2
    · have hN : p.advance.1.type ≠ .END_OF_FILE := by
        simp only [ne_eq, not_not] at h1; rw [h1]; decide
      obtain ⟨c1, c2⟩ := a4 hN
      split at h
      · next right q hq =>
        injection h with h
        injection h with _ hq'
        subst hq'
        obtain ⟨d1, d2, d3⟩ := ih _ _ _ hq
        rw [b1, a1] at d1 d3
        exact ⟨d1, by omega, d3⟩
      · cases h
      · cases h
    · have hN : p.advance.1.type ≠ .END_OF_FILE := by
        simp only [ne_eq, not_not] at h1; rw [h1]; decide
      obtain ⟨c1, c2⟩ := a4 hN
      injection h with h
      injection h with _ hq'
      subst hq'
      exact ⟨a1, by omega, by omega⟩

/-- Progress of `parseExpression`. -/
theorem Parser.parseExpression_progress (p : Parser) (n : ASTNode) (p' : Parser)
    (h : p.parseExpression = .ok (n, p')) :
    p'.tokens = p.tokens ∧ p.current < p'.current ∧ p'.current ≤ p.tokens.length :=
  Parser.parseExpressionAux_progress _ p n p' h

/-- Progress of `parseDeclaration`. -/
theorem Parser.parseDeclaration_progress (p : Parser) (n : ASTNode) (p' : Parser)
    (h : p.parseDeclaration = .ok (n, p')) :
    p'.tokens = p.tokens ∧ p.current < p'.current ∧ p'.current ≤ p.tokens.length := by
  rw [Parser.parseDeclaration_eq] at h
  obtain ⟨a1, a2, a3, a4⟩ := Parser.advance_step p
  obtain ⟨b1, b2, b3, b4⟩ := Parser.advance_step p.advance.2
  obtain ⟨c1, c2, c3, c4⟩ := Parser.match_step p.advance.2.advance.2 .SYMBOL
  obtain ⟨d1, d2, d3, d4⟩ := Parser.advance_step (p.advance.2.advance.2.match_ .SYMBOL).2
  split_ifs at h with h1 h2
  have hN : p.advance.2.advance.1.type ≠ .END_OF_FILE := by
    simp only [ne_eq, not_not] at h1; rw [h1]; decide
  obtain ⟨e1, e2⟩ := b4 hN
  injection h with h
  injection h with _ hq'
  subst hq'
  rw [a1] at b1 b3 e1
  rw [b1] at c1 c3
  rw [c1] at d1 d3
  exact ⟨d1, by omega, by omega⟩

/-- Progress of `parseAssignment`. -/
theorem Parser.parseAssignment_progress (p : Parser) (n : ASTNode) (p' : Parser)
    (h : p.parseAssignment = .ok (n, p')) :
    p'.tokens = p.tokens ∧ p.current < p'.current ∧ p'.current ≤ p.tokens.length := by
  rw [Parser.parseAssignment_eq] at h
  obtain ⟨a1, a2, a3, a4⟩ := Parser.advance_step p
  obtain ⟨b1, b2, b3, b4⟩ := Parser.match_step p.advance.2 .OPERATOR
  obtain ⟨c1, c2, c3, c4⟩ := Parser.advance_step (p.advance.2.match_ .OPERATOR).2
  split_ifs at h with h1 h2
  have hN : p.advance.1.type ≠ .END_OF_FILE := by
    simp only [ne_eq, not_not] at h1; rw [h1]; decide
  obtain ⟨e1, e2⟩ := a4 hN
  split at h
  · cases h
  · cases h
  · next expr q hq =>
    obtain ⟨d1, d2, d3⟩ := Parser.parseExpression_progress _ _ _ hq
    obtain ⟨f1, f2, f3, f4⟩ := Parser.match_step q .SYMBOL
    obtain ⟨g1, g2, g3, g4⟩ := Parser.advance_step (q.match_ .SYMBOL).2
    split_ifs at h with h3
    injection h with h
    injection h with _ hq'
    subst hq'
    rw [a1] at b1 b3
    rw [b1] at c1 c3
    rw [c1] at d1 d3
    rw [d1] at f1 f3
    rw [f1] at g1 g3
    exact ⟨g1, by omega, by omega⟩

/-- Progress of `parseStatement` and `parseConditional`, by induction on the fuel. -/
theorem Parser.parseStatement_progress_aux (fuel : Nat) :
    (∀ (p : Parser) (n : ASTNode) (p' : Parser), Parser.parseStatement fuel p = .ok (n, p') →
      p'.tokens = p.tokens ∧ p.current < p'.current ∧ p'.current ≤ p.tokens.length) ∧
    (∀ (p : Parser) (n : ASTNode) (p' : Parser), Parser.parseConditional fuel p = .ok (n, p') →
      p'.tokens = p.tokens ∧ p.current < p'.current ∧ p'.current ≤ p.tokens.length) := by
  induction fuel with
  | zero =>
    constructor
    · intro p n p' h; simp [Parser.parseStatement] at h
    · intro p n p' h; simp [Parser.parseConditional] at h
  | succ f ih =>
    obtain ⟨ihS, ihC⟩ := ih
    constructor
    · intro p n p' h
      rw [Parser.parseStatement_succ] at h
      obtain ⟨a1, a2, a3, a4⟩ := Parser.match_step p .KEYWORD
      have key : ∀ (r : Outcome (ASTNode × Parser)),
          r = .ok (n, p') →
          (r = (p.match_ .KEYWORD).2.parseDeclaration ∨
            r = Parser.parseConditional f (p.match_ .KEYWORD).2 ∨
            r = (p.match_ .KEYWORD).2.parseAssignment) →
          p'.tokens = p.tokens ∧ p.current < p'.current ∧ p'.current ≤ p.tokens.length := by
        intro r hr hcase
        have hsub : p'.tokens = (p.match_ .KEYWORD).2.tokens ∧
            (p.match_ .KEYWORD).2.current < p'.current ∧
            p'.current ≤ (p.match_ .KEYWORD).2.tokens.length := by
          rcases hcase with hc | hc | hc
          · exact Parser.parseDeclaration_progress _ _ _ (hc ▸ hr)
          · exact ihC _ _ _ (hc ▸ hr)
          · exact Parser.parseAssignment_progress _ _ _ (hc ▸ hr)
        obtain ⟨b1, b2, b3⟩ := hsub
        rw [a1] at b1 b3
        exact ⟨b1, by omega, b3⟩
      split_ifs at h with h1 h2 h3
      · exact key _ h (Or.inl rfl)
      · exact key _ h (Or.inr (Or.inl rfl))
      · exact key _ h (Or.inr (Or.inr rfl))
      · exact key _ h (Or.inr (Or.inr rfl))
    · intro p n p' h
      rw [Parser.parseConditional_succ] at h
      obtain ⟨a1, a2, a3, a4⟩ := Parser.advance_step p
      split at h
      · cases h
      · cases h
      · next condition q hq =>
        obtain ⟨b1, b2, b3⟩ := Parser.parseExpression_progress _ _ _ hq
        obtain ⟨c1, c2, c3, c4⟩ := Parser.match_step q .KEYWORD
        obtain ⟨d1, d2, d3, d4⟩ := Parser.advance_step (q.match_ .KEYWORD).2
        rw [a1] at b1 b3
        rw [b1] at c1 c3
        rw [c1] at d1 d3
        split_ifs at h with h1
        split at h
        · cases h
        · cases h
        · next thenBranch r hr =>
          obtain ⟨e1, e2, e3⟩ := ihS _ _ _ hr
          obtain ⟨f1, f2, f3, f4⟩ := Parser.match_step r .KEYWORD
          obtain ⟨g1, g2, g3, g4⟩ := Parser.advance_step (r.match_ .KEYWORD).2
          rw [d1] at e1 e3
          rw [e1] at f1 f3
          rw [f1] at g1 g3
          split_ifs at h with h2
          · split at h
            · cases h
            · cases h
            · next elseBranch s hs =>
              obtain ⟨k1, k2, k3⟩ := ihS _ _ _ hs
              rw [g1] at k1 k3
              injection h with h
              injection h with _ hq'
              subst hq'
              exact ⟨k1, by omega, k3⟩
          · injection h with h
            injection h with _ hq'
            subst hq'
            exact ⟨f1, by omega, by omega⟩

/-- Progress of `parseStatement`. -/
theorem Parser.parseStatement_progress (fuel : Nat) (p : Parser) (n : ASTNode) (p' : Parser)
    (h : Parser.parseStatement fuel p = .ok (n, p')) :
    p'.tokens = p.tokens ∧ p.current < p'.current ∧ p'.current ≤ p.tokens.length :=
  (Parser.parseStatement_progress_aux fuel).1 p n p' h

/-- With the tokens left plus one as fuel the expression rule does not run out of fuel. -/
theorem Parser.parseExpressionAux_ne_fuelOut :
    ∀ (fuel : Nat) (p : Parser), p.tokens.length - p.current + 1 ≤ fuel →
      Parser.parseExpressionAux fuel p ≠ .fuelOut := by
  intro fuel
  induction fuel with
  | zero => intro p h; omega
  | succ f ih =>
    intro p h
    rw [Parser.parseExpressionAux_succ]
    obtain ⟨a1, a2, a3, a4⟩ := Parser.advance_step p
    obtain ⟨b1, b2, b3, b4⟩ := Parser.advance_step p.advance.2
    split_ifs with h1 h2
    · simp
    · have hN : p.advance.1.type ≠ .END_OF_FILE := by
        simp only [ne_eq, not_not] at h1; rw [h1]; decide
      obtain ⟨c1, c2⟩ := a4 hN
      have hN2 : p.advance.2.advance.1.type ≠ .END_OF_FILE := by
        rw [Parser.advance_fst, h2]; decide
      obtain ⟨d1, d2⟩ := b4 hN2
      rw [a1] at d1
      have hrec := ih p.advance.2.advance.2 (by rw [b1, a1]; omega)
      split
      · simp
      · simp
      · next heq => exact absurd heq hrec
    · simp

/-- The expression rule does not run out of fuel. -/
theorem Parser.parseExpression_ne_fuelOut (p : Parser) : p.parseExpression ≠ .fuelOut :=
  Parser.parseExpressionAux_ne_fuelOut _ p (Nat.le_refl _)

/-- The declaration rule uses no fuel. -/
theorem Parser.parseDeclaration_ne_fuelOut (p : Parser) : p.parseDeclaration ≠ .fuelOut := by
  rw [Parser.parseDeclaration_eq]
  split_ifs <;> simp

/-- The assignment rule does not run out of fuel. -/
theorem Parser.parseAssignment_ne_fuelOut (p : Parser) : p.parseAssignment ≠ .fuelOut := by
  rw [Parser.parseAssignment_eq]
  split_ifs
  · simp
  · simp
  · split
    · simp
    · next heq => exact absurd heq (Parser.parseExpression_ne_fuelOut _)
    · split_ifs <;> simp

/-- With the tokens left plus two as fuel the statement and conditional rules do not run out of fuel. -/
theorem Parser.parseStatement_ne_fuelOut_aux (fuel : Nat) :
    (∀ (p : Parser), p.tokens.length - p.current + 2 ≤ fuel →
      Parser.parseStatement fuel p ≠ .fuelOut) ∧
    (∀ (p : Parser), p.tokens.length - p.current + 2 ≤ fuel →
      Parser.parseConditional fuel p ≠ .fuelOut) := by
  induction fuel with
  | zero => exact ⟨fun p h => by omega, fun p h => by omega⟩
  | succ f ih =>
    obtain ⟨ihS, ihC⟩ := ih
    constructor
    · intro p h
      rw [Parser.parseStatement_succ]
      obtain ⟨a1, a2, a3, a4⟩ := Parser.match_step p .KEYWORD
      split_ifs with h1 h2 h3
      · exact Parser.parseDeclaration_ne_fuelOut _
      · obtain ⟨c1, c2⟩ := a4 h1 (by decide)
        exact ihC _ (by rw [a1]; omega)
      · exact Parser.parseAssignment_ne_fuelOut _
      · exact Parser.parseAssignment_ne_fuelOut _
    · intro p h
      rw [Parser.parseConditional_succ]
      obtain ⟨a1, a2, a3, a4⟩ := Parser.advance_step p
      split
      · simp
      · next heq => exact absurd heq (Parser.parseExpression_ne_fuelOut _)
      · next condition q hq =>
        obtain ⟨b1, b2, b3⟩ := Parser.parseExpression_progress _ _ _ hq
        obtain ⟨c1, c2, c3, c4⟩ := Parser.match_step q .KEYWORD
        obtain ⟨d1, d2, d3, d4⟩ := Parser.advance_step (q.match_ .KEYWORD).2
        rw [a1] at b1 b3
        rw [b1] at c1 c3 c4
        rw [c1] at d1 d3
        split_ifs with h1
        · simp
        · have hm : (q.match_ .KEYWORD).1 = true := by
            simp only [Bool.or_eq_true, Bool.not_eq_true', not_or, Bool.not_eq_false] at h1
            exact h1.1
          obtain ⟨e1, e2⟩ := c4 hm (by decide)
          have hthen := ihS (q.match_ .KEYWORD).2.advance.2 (by rw [d1]; omega)
          split
          · simp
          · next heq => exact absurd heq hthen
          · next thenBranch r hr =>
            obtain ⟨f1, f2, f3⟩ := Parser.parseStatement_progress _ _ _ _ hr
            obtain ⟨g1, g2, g3, g4⟩ := Parser.match_step r .KEYWORD
            obtain ⟨k1, k2, k3, k4⟩ := Parser.advance_step (r.match_ .KEYWORD).2
            rw [d1] at f1 f3
            rw [f1] at g1 g3
            rw [g1] at k1 k3
            split_ifs with h2
            · have helse := ihS (r.match_ .KEYWORD).2.advance.2 (by rw [k1]; omega)
              split
              · simp
              · next heq => exact absurd heq helse
              · simp
            · simp

/-- The statement rule does not run out of fuel. -/
theorem Parser.parseStatement_ne_fuelOut (fuel : Nat) (p : Parser)
    (h : p.tokens.length - p.current + 2 ≤ fuel) : Parser.parseStatement fuel p ≠ .fuelOut :=
  (Parser.parseStatement_ne_fuelOut_aux fuel).1 p h

/-- With the tokens left plus one as fuel the loop of `parse` does not run out of fuel. -/
theorem Parser.parseLoop_ne_fuelOut :
    ∀ (fuel : Nat) (p : Parser) (children : List ASTNode),
      p.tokens.length - p.current + 1 ≤ fuel → Parser.parseLoop fuel p children ≠ .fuelOut := by
  intro fuel
  induction fuel with
  | zero => intro p children h; omega
  | succ f ih =>
    intro p children h
    rw [Parser.parseLoop_succ]
    split_ifs with h1
    · have hlt := Parser.lt_of_peek_type p h1
      split
      · simp
      · next heq => exact absurd heq (Parser.parseStatement_ne_fuelOut _ p (Nat.le_refl _))
      · next stmt q hq =>
        obtain ⟨b1, b2, b3⟩ := Parser.parseStatement_progress _ _ _ _ hq
        exact ih q _ (by rw [b1]; omega)
    · simp

/-- The program rule does not run out of fuel. -/
theorem Parser.parse_ne_fuelOut (p : Parser) : p.parse ≠ .fuelOut :=
  Parser.parseLoop_ne_fuelOut _ p [] (Nat.le_refl _)

/-- More fuel does not change a result of the expression rule. -/
theorem Parser.parseExpressionAux_mono :
    ∀ (fuel : Nat) (p : Parser), Parser.parseExpressionAux fuel p ≠ .fuelOut →
      Parser.parseExpressionAux (fuel + 1) p = Parser.parseExpressionAux fuel p := by
  intro fuel
  induction fuel with
  | zero => intro p h; exact absurd (by rw [Parser.parseExpressionAux]) h
  | succ f ih =>
    intro p h
    rw [Parser.parseExpressionAux_succ] at h
    rw [Parser.parseExpressionAux_succ (f + 1) p, Parser.parseExpressionAux_succ f p]
    split_ifs at h ⊢ with h1 h2
    · rfl
    · have hne : Parser.parseExpressionAux f p.advance.2.advance.2 ≠ .fuelOut := by
        intro hc; rw [hc] at h; exact h rfl
      rw [ih _ hne]
    · rfl

/-- Every fuel from the default on gives the result of `parseExpression`. -/
theorem Parser.parseExpressionAux_fuel (p : Parser) (fuel : Nat)
    (h : p.tokens.length - p.current + 1 ≤ fuel) :
    Parser.parseExpressionAux fuel p = p.parseExpression := by
  induction fuel with
  | zero => omega
  | succ k ih =>
    by_cases hk : p.tokens.length - p.current + 1 ≤ k
    · rw [← ih hk]
      exact Parser.parseExpressionAux_mono _ p (Parser.parseExpressionAux_ne_fuelOut _ p hk)
    · have : k + 1 = p.tokens.length - p.current + 1 := by omega
      rw [this]
      rfl

/-- More fuel does not change a result of the statement and conditional rules. -/
theorem Parser.parseStatement_mono_aux (fuel : Nat) :
    (∀ (p : Parser), Parser.parseStatement fuel p ≠ .fuelOut →
      Parser.parseStatement (fuel + 1) p = Parser.parseStatement fuel p) ∧
    (∀ (p : Parser), Parser.parseConditional fuel p ≠ .fuelOut →
      Parser.parseConditional (fuel + 1) p = Parser.parseConditional fuel p) := by
  induction fuel with
  | zero =>
    exact ⟨fun p h => absurd (by rw [Parser.parseStatement]) h,
      fun p h => absurd (by rw [Parser.parseConditional]) h⟩
  | succ f ih =>
    obtain ⟨ihS, ihC⟩ := ih
    constructor
    · intro p h
      rw [Parser.parseStatement_succ] at h
      rw [Parser.parseStatement_succ (f + 1) p, Parser.parseStatement_succ f p]
      split_ifs at h ⊢ with h1 h2 h3
      · rfl
      · exact ihC _ h
      · rfl
      · rfl
    · intro p h
      rw [Parser.parseConditional_succ] at h
      rw [Parser.parseConditional_succ (f + 1) p, Parser.parseConditional_succ f p]
      split at h
      · rfl
      · rfl
      · next condition q hq =>
        split_ifs at h ⊢ with h1
        · rfl
        · have hne : Parser.parseStatement f (q.match_ .KEYWORD).2.advance.2 ≠ .fuelOut := by
            intro hc; rw [hc] at h; exact h rfl
          rw [ihS _ hne]
          split at h
          · rfl
          · next heq => exact absurd heq hne
          · next thenBranch r hr =>
            split_ifs at h ⊢ with h2
            · have hne2 : Parser.parseStatement f (r.match_ .KEYWORD).2.advance.2 ≠ .fuelOut := by
                intro hc; rw [hc] at h; exact h rfl
              rw [ihS _ hne2]
            · rfl

/-- Every fuel from the default on gives the result of the default fuel. -/
theorem Parser.parseStatement_fuel (p : Parser) (fuel : Nat)
    (h : p.tokens.length - p.current + 2 ≤ fuel) :
    Parser.parseStatement fuel p =
      Parser.parseStatement (p.tokens.length - p.current + 2) p := by
  induction fuel with
  | zero => omega
  | succ k ih =>
    by_cases hk : p.tokens.length - p.current + 2 ≤ k
    · rw [← ih hk]
      exact (Parser.parseStatement_mono_aux _).1 p (Parser.parseStatement_ne_fuelOut _ p hk)
    · have : k + 1 = p.tokens.length - p.current + 2 := by omega
      rw [this]

/-- More fuel does not change a result of the loop of `parse`. -/
theorem Parser.parseLoop_mono :
    ∀ (fuel : Nat) (p : Parser) (children : List ASTNode),
      Parser.parseLoop fuel p children ≠ .fuelOut →
      Parser.parseLoop (fuel + 1) p children = Parser.parseLoop fuel p children := by
  intro fuel
  induction fuel with
  | zero => intro p children h; exact absurd (by rw [Parser.parseLoop]) h
  | succ f ih =>
    intro p children h
    rw [Parser.parseLoop_succ] at h
    rw [Parser.parseLoop_succ (f + 1) p, Parser.parseLoop_succ f p]
    split_ifs at h ⊢ with h1
    · split at h
      · rfl
      · rfl
      · next stmt q hq =>
        exact ih _ _ h
    · rfl

/-- Every fuel from the default on gives the result of `parse`. -/
theorem Parser.parseLoop_fuel (p : Parser) (fuel : Nat)
    (h : p.tokens.length - p.current + 1 ≤ fuel) :
    Parser.parseLoop fuel p [] = p.parse := by
  induction fuel with
  | zero => omega
  | succ k ih =>
    by_cases hk : p.tokens.length - p.current + 1 ≤ k
    · rw [← ih hk]
      exact Parser.parseLoop_mono _ p [] (Parser.parseLoop_ne_fuelOut _ p [] hk)
    · have : k + 1 = p.tokens.length - p.current + 1 := by omega
      rw [this]
      rfl

/-- Kind of a constructed node. -/
theorem ASTNode.type_mk (t : ASTNodeType) (v : String) (cs : List ASTNode) :
    (ASTNode.mk t v cs).type = t := rfl

/-- Children of a constructed node. -/
theorem ASTNode.children_mk (t : ASTNodeType) (v : String) (cs : List ASTNode) :
    (ASTNode.mk t v cs).children = cs := rfl

/-- The nodes of a list of trees are the nodes of its members. -/
theorem ASTNode.mem_nodesOfList (n : ASTNode) (cs : List ASTNode) :
    n ∈ ASTNode.nodesOfList cs ↔ ∃ c ∈ cs, n ∈ c.nodes := by
  induction cs with
  | nil => simp [ASTNode.nodesOfList]
  | cons c cs ih => simp [ASTNode.nodesOfList, ih]

/-- An expression tree returned by the parser is an EXPRESSION whose nodes all have their shape. -/
theorem Parser.parseExpressionAux_shape (idents : List String) :
    ∀ (fuel : Nat) (p : Parser) (n : ASTNode) (p' : Parser),
      Parser.parseExpressionAux fuel p = .ok (n, p') →
      n.type = .EXPRESSION ∧ ∀ m ∈ n.nodes, m.shapeOk idents = true := by
  intro fuel
  induction fuel with
  | zero => intro p n p' h; simp [Parser.parseExpressionAux] at h
  | succ f ih =>
    intro p n p' h
    rw [Parser.parseExpressionAux_succ] at h
    split_ifs at h with h1 h2
    · split at h
      · next right q hq =>
        obtain ⟨r1, r2⟩ := ih _ _ _ hq
        injection h with h
        injection h with hn _
        subst hn
        refine ⟨rfl, ?_⟩
        intro m hm
        simp only [ASTNode.nodes, ASTNode.nodesOfList, List.mem_cons, List.mem_append,
          List.append_nil, List.not_mem_nil, or_false] at hm
        rcases hm with rfl | rfl | hm
        · simp [ASTNode.shapeOk, ASTNode.type_mk, ASTNode.children_mk, r1]
        · simp [ASTNode.shapeOk]
        · exact r2 m hm
      · cases h
      · cases h
    · injection h with h
      injection h with hn _
      subst hn
      refine ⟨rfl, ?_⟩
      intro m hm
      simp only [ASTNode.nodes, ASTNode.nodesOfList, List.mem_cons, List.not_mem_nil,
        or_false] at hm
      subst hm
      simp [ASTNode.shapeOk]

/-- The text of an IDENTIFIER token of the sequence is among the identifier texts. -/
theorem identifierTexts_mem (tokens : List Token) (t : Token) (ht : t ∈ tokens)
    (hty : t.type = .IDENTIFIER) : t.value ∈ identifierTexts tokens := by
  unfold identifierTexts
  exact List.mem_map_of_mem _ (List.mem_filter.2 ⟨ht, by simp [hty]⟩)

/-- An IDENTIFIER returned by `advance` is a token of the sequence. -/
theorem Parser.advance_fst_mem (p : Parser) (h : p.advance.1.type = .IDENTIFIER) :
    p.advance.1.value ∈ identifierTexts p.tokens := by
  apply identifierTexts_mem _ _ _ h
  rw [Parser.advance_fst] at h ⊢
  exact Parser.peek_mem p (by rw [h]; decide)

/-- A declaration returned by the parser is a statement whose nodes all have their shape. -/
theorem Parser.parseDeclaration_shape (p : Parser) (n : ASTNode) (p' : Parser)
    (h : p.parseDeclaration = .ok (n, p')) :
    n.type.isStatement = true ∧ ∀ m ∈ n.nodes, m.shapeOk (identifierTexts p.tokens) = true := by
  rw [Parser.parseDeclaration_eq] at h
  split_ifs at h with h1 h2
  injection h with h
  injection h with hn _
  subst hn
  refine ⟨rfl, ?_⟩
  intro m hm
  simp only [ASTNode.nodes, ASTNode.nodesOfList, List.mem_cons, List.not_mem_nil,
    or_false] at hm
  subst hm
  have hmem := Parser.advance_fst_mem p.advance.2 (by simpa using h1)
  rw [Parser.advance_tokens] at hmem
  simp [ASTNode.shapeOk, hmem]

/-- An assignment returned by the parser is a statement whose nodes all have their shape. -/
theorem Parser.parseAssignment_shape (p : Parser) (n : ASTNode) (p' : Parser)
    (h : p.parseAssignment = .ok (n, p')) :
    n.type.isStatement = true ∧ ∀ m ∈ n.nodes, m.shapeOk (identifierTexts p.tokens) = true := by
  rw [Parser.parseAssignment_eq] at h
  split_ifs at h with h1 h2
  split at h
  · cases h
  · cases h
  · next expr q hq =>
    obtain ⟨e1, e2⟩ := Parser.parseExpressionAux_shape (identifierTexts p.tokens) _ _ _ _ hq
    split_ifs at h with h3
    injection h with h
    injection h with hn _
    subst hn
    refine ⟨rfl, ?_⟩
    intro m hm
    simp only [ASTNode.nodes, ASTNode.nodesOfList, List.mem_cons, List.mem_append,
      List.append_nil, List.not_mem_nil, or_false] at hm
    have hmem := Parser.advance_fst_mem p (by simpa using h1)
    rcases hm with rfl | hm
    · simp [ASTNode.shapeOk, hmem, e1]
    · exact e2 m hm

/-- Statements and conditionals returned by the parser are statements whose nodes all have their shape. -/
theorem Parser.parseStatement_shape_aux (fuel : Nat) :
    (∀ (p : Parser) (n : ASTNode) (p' : Parser), Parser.parseStatement fuel p = .ok (n, p') →
      n.type.isStatement = true ∧
        ∀ m ∈ n.nodes, m.shapeOk (identifierTexts p.tokens) = true) ∧
    (∀ (p : Parser) (n : ASTNode) (p' : Parser), Parser.parseConditional fuel p = .ok (n, p') →
      n.type.isStatement = true ∧
        ∀ m ∈ n.nodes, m.shapeOk (identifierTexts p.tokens) = true) := by
  induction fuel with
  | zero =>
    constructor
    · intro p n p' h; simp [Parser.parseStatement] at h
    · intro p n p' h; simp [Parser.parseConditional] at h
  | succ f ih =>
    obtain ⟨ihS, ihC⟩ := ih
    constructor
    · intro p n p' h
      rw [Parser.parseStatement_succ] at h
      have a1 := Parser.match_tokens p .KEYWORD
      rw [← a1]
      split_ifs at h with h1 h2 h3
      · exact Parser.parseDeclaration_shape _ _ _ h
      · exact ihC _ _ _ h
      · exact Parser.parseAssignment_shape _ _ _ h
      · exact Parser.parseAssignment_shape _ _ _ h
    · intro p n p' h
      rw [Parser.parseConditional_succ] at h
      have a1 := Parser.advance_tokens p
      split at h
      · cases h
      · cases h
      · next condition q hq =>
        obtain ⟨c1, c2⟩ := Parser.parseExpressionAux_shape (identifierTexts p.tokens) _ _ _ _ hq
        obtain ⟨b1, -, -⟩ := Parser.parseExpression_progress _ _ _ hq
        have d1 := Parser.match_tokens q .KEYWORD
        have d2 := Parser.advance_tokens (q.match_ .KEYWORD).2
        split_ifs at h with h1
        split at h
        · cases h
        · cases h
        · next thenBranch r hr =>
          obtain ⟨t1, t2⟩ := ihS _ _ _ hr
          obtain ⟨e1, -, -⟩ := Parser.parseStatement_progress _ _ _ _ hr
          rw [d2, d1, b1, a1] at t2 e1
          have f1 := Parser.match_tokens r .KEYWORD
          have f2 := Parser.advance_tokens (r.match_ .KEYWORD).2
          split_ifs at h with h2
          · split at h
            · cases h
            · cases h
            · next elseBranch s hs =>
              obtain ⟨u1, u2⟩ := ihS _ _ _ hs
              rw [f2, f1, e1] at u2
              injection h with h
              injection h with hn _
              subst hn
              refine ⟨rfl, ?_⟩
              intro m hm
              simp only [ASTNode.nodes, ASTNode.nodesOfList, List.mem_cons, List.mem_append,
                List.append_nil, List.not_mem_nil, or_false] at hm
              rcases hm with rfl | hm | hm | hm
              · simp [ASTNode.shapeOk, c1, t1, u1]
              · exact c2 m hm
              · exact t2 m hm
              · exact u2 m hm
          · injection h with h
            injection h with hn _
            subst hn
            refine ⟨rfl, ?_⟩
            intro m hm
            simp only [ASTNode.nodes, ASTNode.nodesOfList, List.mem_cons, List.mem_append,
              List.append_nil, List.not_mem_nil, or_false] at hm
            rcases hm with rfl | hm | hm
            · simp [ASTNode.shapeOk, c1, t1]
            · exact c2 m hm
            · exact t2 m hm

/-- The loop of `parse` returns a PROGRAM over the statements pushed. -/
theorem Parser.parseLoop_shape :
    ∀ (fuel : Nat) (p : Parser) (children : List ASTNode) (root : ASTNode) (p' : Parser),
      Parser.parseLoop fuel p children = .ok (root, p') →
      (∀ c ∈ children, c.type.isStatement = true ∧
        ∀ m ∈ c.nodes, m.shapeOk (identifierTexts p.tokens) = true) →
      ∃ cs, root = ASTNode.mk .PROGRAM "" cs ∧
        ∀ c ∈ cs, c.type.isStatement = true ∧
          ∀ m ∈ c.nodes, m.shapeOk (identifierTexts p.tokens) = true := by
  intro fuel
  induction fuel with
  | zero => intro p children root p' h; simp [Parser.parseLoop] at h
  | succ f ih =>
    intro p children root p' h hcs
    rw [Parser.parseLoop_succ] at h
    split_ifs at h with h1
    · split at h
      · cases h
      · cases h
      · next stmt q hq =>
        obtain ⟨s1, s2⟩ := (Parser.parseStatement_shape_aux _).1 _ _ _ hq
        obtain ⟨b1, -, -⟩ := Parser.parseStatement_progress _ _ _ _ hq
        have := ih q (children ++ [stmt]) root p' h (by
          intro c hc
          rw [b1]
          rcases List.mem_append.1 hc with hc | hc
          · exact hcs c hc
          · rw [List.mem_singleton] at hc
            subst hc
            exact ⟨s1, s2⟩)
        rw [b1] at this
        exact this
    · injection h with h
      injection h with hn _
      exact ⟨children, hn.symm, hcs⟩

/-- A result that is not out of fuel is a value or an error. -/
theorem Outcome.cases_of_ne_fuelOut {α : Type} (r : Outcome α) (h : r ≠ .fuelOut) :
    (∃ a, r = .ok a) ∨ (∃ msg, r = .error msg) := by
  cases r with
  | ok a => exact Or.inl ⟨a, rfl⟩
  | error msg => exact Or.inr ⟨msg, rfl⟩
  | fuelOut => exact absurd rfl h

/-- The text from a position on is the maximal run there followed by the text after the run. -/
theorem drop_run (pred : Char → Bool) (src : List Char) (start : Nat) :
    src.drop start = (src.drop start).takeWhile pred ++
      src.drop (start + ((src.drop start).takeWhile pred).length) :=
  (maximalRun_spec pred src start).1

/-- A letter or digit is not whitespace. -/
theorem not_space_of_isalnum (c : Char) (h : isalnum c = true) : isspace c = false := by
  simp only [isalnum, isspace, isalpha, isdigit, Bool.and_eq_true, Bool.or_eq_true,
    Bool.or_eq_false_iff, Bool.and_eq_false_iff, decide_eq_true_eq, decide_eq_false_iff_not,
    beq_eq_false_iff_ne, ne_eq] at h ⊢
  omega

/-- Inside the source the unread text starts with the current character. -/
theorem Lexer.drop_of_peek_ne_NUL (l : Lexer) (h : l.peek ≠ NUL) :
    l.source.drop l.pos = l.peek :: l.source.drop (l.pos + 1) := by
  have hlt : l.pos < l.source.length := by
    by_contra hlt
    exact h (Lexer.peek_of_length_le l (Nat.le_of_not_lt hlt))
  rw [List.drop_eq_getElem_cons hlt]
  unfold Lexer.peek
  rw [dif_pos hlt]

/-- A token other than END_OF_FILE is the non-empty, whitespace-free piece of the source between the end of the whitespace and the new cursor. -/
theorem Lexer.nextToken_segment (l : Lexer) (tok : Token) (l' : Lexer)
    (h : l.nextToken = .ok (tok, l')) (ht : tok.type ≠ .END_OF_FILE) :
    l' = ⟨l.source, l.afterSpaces + tok.value.data.length⟩ ∧
    l.source.drop l.afterSpaces =
      tok.value.data ++ l.source.drop (l.afterSpaces + tok.value.data.length) ∧
    tok.value.data ≠ [] ∧ ∀ c ∈ tok.value.data, isspace c = false := by
  by_cases hα : isalpha l.skipped.peek = true
  · rw [Lexer.nextToken_unfold, if_pos hα] at h
    injection h with h
    injection h with h1 h2
    subst h1
    subst h2
    have hN : l.skipped.peek ≠ NUL := by intro hc; rw [hc] at hα; exact absurd hα (by decide)
    have hd := Lexer.drop_of_peek_ne_NUL l.skipped hN
    have hd' : l.source.drop l.afterSpaces = l.skipped.peek :: l.source.drop (l.afterSpaces + 1) :=
      hd
    refine ⟨rfl, drop_run isalnum _ _, ?_, ?_⟩
    · show (l.source.drop l.afterSpaces).takeWhile isalnum ≠ []
      rw [hd', List.takeWhile_cons, if_pos (by simp [isalnum, hα])]
      simp
    · intro c hc
      exact not_space_of_isalnum c (List.mem_takeWhile_imp hc)
  by_cases hδ : isdigit l.skipped.peek = true
  · rw [Lexer.nextToken_unfold, if_neg hα, if_pos hδ] at h
    injection h with h
    injection h with h1 h2
    subst h1
    subst h2
    have hN : l.skipped.peek ≠ NUL := by intro hc; rw [hc] at hδ; exact absurd hδ (by decide)
    have hd' : l.source.drop l.afterSpaces = l.skipped.peek :: l.source.drop (l.afterSpaces + 1) :=
      Lexer.drop_of_peek_ne_NUL l.skipped hN
    refine ⟨rfl, drop_run isdigit _ _, ?_, ?_⟩
    · show (l.source.drop l.afterSpaces).takeWhile isdigit ≠ []
      rw [hd', List.takeWhile_cons, if_pos hδ]
      simp
    · intro c hc
      exact not_space_of_isalnum c (by simp [isalnum, List.mem_takeWhile_imp hc])
  by_cases hop : l.skipped.peek = '+' ∨ l.skipped.peek = '-' ∨ l.skipped.peek = '='
  · rw [Lexer.nextToken_operator l hop] at h
    have hN : l.skipped.peek ≠ NUL := by rcases hop with h | h | h <;> rw [h] <;> decide
    have hd' : l.source.drop l.afterSpaces = l.skipped.peek :: l.source.drop (l.afterSpaces + 1) :=
      Lexer.drop_of_peek_ne_NUL l.skipped hN
    split_ifs at h with h2
    · injection h with h
      injection h with h1 h2'
      subst h1
      subst h2'
      have hN2 : Lexer.peek ⟨l.source, l.afterSpaces + 1⟩ ≠ NUL := by rw [h2.2]; decide
      have hd2 := Lexer.drop_of_peek_ne_NUL ⟨l.source, l.afterSpaces + 1⟩ hN2
      simp only [] at hd2
      rw [h2.2] at hd2
      rw [h2.1] at hd'
      refine ⟨rfl, ?_, by decide, by decide⟩
      rw [hd', hd2]
      rfl
    · injection h with h
      injection h with h1 h2'
      subst h1
      subst h2'
      refine ⟨rfl, ?_, by simp [String.singleton, String.push], ?_⟩
      · rw [hd']; rfl
      · intro c hc
        have : c = l.skipped.peek := by simpa [String.singleton, String.push] using hc
        rw [this]
        rcases hop with h | h | h <;> rw [h] <;> decide
  by_cases hsym : l.skipped.peek = ';' ∨ l.skipped.peek = '(' ∨ l.skipped.peek = ')'
  · have hN : l.skipped.peek ≠ NUL := by rcases hsym with h | h | h <;> rw [h] <;> decide
    have hd' : l.source.drop l.afterSpaces = l.skipped.peek :: l.source.drop (l.afterSpaces + 1) :=
      Lexer.drop_of_peek_ne_NUL l.skipped hN
    rw [Lexer.nextToken_unfold, if_neg hα, if_neg hδ,
      if_neg (by rw [count_OPERATORS_singleton]; exact hop), if_pos hsym,
      Lexer.advance_of_peek_ne_NUL _ hN] at h
    injection h with h
    injection h with h1 h2'
    subst h1
    subst h2'
    refine ⟨rfl, ?_, by simp [String.singleton, String.push], ?_⟩
    · rw [hd']; rfl
    · intro c hc
      have : c = l.skipped.peek := by simpa [String.singleton, String.push] using hc
      rw [this]
      rcases hsym with h | h | h <;> rw [h] <;> decide
  · rw [Lexer.nextToken_unfold, if_neg hα, if_neg hδ,
      if_neg (by rw [count_OPERATORS_singleton]; exact hop), if_neg hsym] at h
    split_ifs at h
    injection h with h
    injection h with h1 _
    subst h1
    exact absurd rfl ht

/-- The whitespace loop moves the cursor forward and not past the end. -/
theorem Lexer.afterSpaces_bounds (l : Lexer) (hpos : l.pos ≤ l.source.length) :
    l.pos ≤ l.afterSpaces ∧ l.afterSpaces ≤ l.source.length := by
  unfold Lexer.afterSpaces
  have h1 : ((l.source.drop l.pos).takeWhile isspace).length ≤ (l.source.drop l.pos).length :=
    (List.takeWhile_prefix isspace).length_le
  rw [List.length_drop] at h1
  omega

/-- A token other than END_OF_FILE moves the cursor strictly forward, not past the end. -/
theorem Lexer.nextToken_progress (l : Lexer) (tok : Token) (l' : Lexer)
    (h : l.nextToken = .ok (tok, l')) (ht : tok.type ≠ .END_OF_FILE) :
    l'.source = l.source ∧ l.afterSpaces < l'.pos ∧ l'.pos ≤ l.source.length ∧
      l.pos < l'.pos := by
  obtain ⟨h1, h2, h3, -⟩ := Lexer.nextToken_segment l tok l' h ht
  have hlen := congrArg List.length h2
  rw [List.length_append, List.length_drop, List.length_drop] at hlen
  have hpos : 0 < tok.value.data.length := List.length_pos.2 h3
  have ha : l.pos ≤ l.afterSpaces := by unfold Lexer.afterSpaces; omega
  subst h1
  refine ⟨rfl, ?_, ?_, ?_⟩
  · show l.afterSpaces < l.afterSpaces + tok.value.data.length
    omega
  · show l.afterSpaces + tok.value.data.length ≤ l.source.length
    omega
  · show l.pos < l.afterSpaces + tok.value.data.length
    omega

/-- The state after a call is the returned state, or the state after the whitespace when the call throws. -/
theorem Lexer.stateAfter_eq (l : Lexer) :
    (∃ tok, l.nextToken = .ok (tok, l.stateAfter)) ∨
      ((∃ msg, l.nextToken = .error msg) ∧ l.stateAfter = l.skipped) := by
  unfold Lexer.stateAfter
  cases h : l.nextToken with
  | ok r => exact Or.inl ⟨r.1, rfl⟩
  | error msg => exact Or.inr ⟨⟨msg, rfl⟩, Lexer.skip_eq l⟩

/-- A call keeps the source and moves the cursor forward, not past the end. -/
theorem Lexer.stateAfter_bounds (l : Lexer) (hpos : l.pos ≤ l.source.length) :
    l.stateAfter.source = l.source ∧ l.pos ≤ l.stateAfter.pos ∧
      l.stateAfter.pos ≤ l.source.length := by
  obtain ⟨a1, a2⟩ := Lexer.afterSpaces_bounds l hpos
  rcases Lexer.stateAfter_eq l with ⟨tok, h⟩ | ⟨-, h⟩
  · by_cases ht : tok.type = .END_OF_FILE
    · obtain ⟨-, -, h3⟩ := (Lexer.nextToken_eof_iff l tok l.stateAfter).1 ⟨h, ht⟩
      rw [h3]
      exact ⟨rfl, a1, a2⟩
    · obtain ⟨b1, b2, b3, b4⟩ := Lexer.nextToken_progress l tok _ h ht
      exact ⟨b1, by omega, b3⟩
  · rw [h]
    exact ⟨rfl, a1, a2⟩

/-- After as many calls as there are characters left, a call fails or returns END_OF_FILE. -/
theorem Lexer.callAfter_late :
    ∀ (n : Nat) (l : Lexer), l.pos ≤ l.source.length → l.source.length - l.pos ≤ n →
      (∃ msg, Lexer.callAfter n l = .error msg) ∨
        (∃ tok l', Lexer.callAfter n l = .ok (tok, l') ∧ tok.type = .END_OF_FILE) := by
  intro n
  induction n with
  | zero =>
    intro l hpos hn
    obtain ⟨a1, a2⟩ := Lexer.afterSpaces_bounds l hpos
    have hp : l.skipped.peek = NUL := Lexer.peek_of_length_le l.skipped (by
      show l.source.length ≤ l.afterSpaces
      omega)
    exact Or.inr ⟨_, _, ((Lexer.nextToken_eof_iff l ⟨.END_OF_FILE, ""⟩ l.skipped).2
      ⟨hp, rfl, rfl⟩).1, rfl⟩
  | succ n ih =>
    intro l hpos hn
    rw [Lexer.callAfter]
    cases h : l.nextToken with
    | error msg => exact Or.inl ⟨msg, rfl⟩
    | ok r =>
      obtain ⟨tok, l'⟩ := r
      by_cases ht : tok.type = .END_OF_FILE
      · obtain ⟨hp, h2, h3⟩ := (Lexer.nextToken_eof_iff l tok l').1 ⟨h, ht⟩
        subst h3
        right
        exact ⟨tok, l.skipped,
          Lexer.callAfter_fixed _ _ (h2 ▸ Lexer.nextToken_skipped_of_NUL l hp) n, ht⟩
      · obtain ⟨b1, b2, b3, b4⟩ := Lexer.nextToken_progress l tok l' h ht
        exact ih l' (by rw [b1]; exact b3) (by rw [b1]; omega)

/-- The driver does not run out of fuel and returns at most as many tokens as there are characters left. -/
theorem Lexer.tokenizeAux_bound :
    ∀ (fuel : Nat) (l : Lexer), l.pos ≤ l.source.length → l.source.length - l.pos + 1 ≤ fuel →
      Lexer.tokenizeAux fuel l ≠ .fuelOut ∧
        ∀ toks, Lexer.tokenizeAux fuel l = .ok toks →
          toks.length ≤ l.source.length - l.pos := by
  intro fuel
  induction fuel with
  | zero => intro l _ h; omega
  | succ f ih =>
    intro l hpos hf
    rw [Lexer.tokenizeAux]
    cases h : l.nextToken with
    | error msg => simp
    | ok r =>
      obtain ⟨tok, l'⟩ := r
      by_cases ht : tok.type = .END_OF_FILE
      · simp [ht]
      · obtain ⟨b1, b2, b3, b4⟩ := Lexer.nextToken_progress l tok l' h ht
        obtain ⟨i1, i2⟩ := ih l' (by rw [b1]; exact b3) (by rw [b1]; omega)
        simp only [ht, if_false]
        cases hr : Lexer.tokenizeAux f l' with
        | fuelOut => exact absurd hr i1
        | error msg => simp
        | ok toks =>
          refine ⟨by simp, ?_⟩
          intro toks' htoks
          injection htoks with htoks
          subst htoks
          have := i2 toks hr
          rw [b1] at this
          simp only [List.length_cons]
          omega

/-- Removing whitespace from whitespace leaves nothing. -/
theorem filter_not_space_of_all_space (ws : List Char) (h : ∀ c ∈ ws, isspace c = true) :
    ws.filter (fun c => !isspace c) = [] := by
  rw [List.filter_eq_nil_iff]
  intro c hc
  simp [h c hc]

/-- Removing whitespace from a text without whitespace leaves the text. -/
theorem filter_not_space_of_none (w : List Char) (h : ∀ c ∈ w, isspace c = false) :
    w.filter (fun c => !isspace c) = w := by
  rw [List.filter_eq_self]
  intro c hc
  simp [h c hc]

/-- The unread text is the whitespace run followed by the text after it. -/
theorem Lexer.drop_split (l : Lexer) :
    l.source.drop l.pos =
      (l.source.drop l.pos).takeWhile isspace ++ l.source.drop l.afterSpaces := by
  rw [Lexer.skipped_drop, List.takeWhile_append_dropWhile]

/-- The whitespace run at the cursor adds nothing to the text without whitespace. -/
theorem Lexer.filter_drop_eq (l : Lexer) :
    (l.source.drop l.pos).filter (fun c => !isspace c) =
      (l.source.drop l.afterSpaces).filter (fun c => !isspace c) := by
  conv_lhs => rw [Lexer.drop_split l]
  rw [List.filter_append,
    filter_not_space_of_all_space _ (fun c hc => List.mem_takeWhile_imp hc), List.nil_append]

/-- The texts of the tokens returned by the driver concatenate to the unread text without its whitespace. -/
theorem Lexer.tokenizeAux_texts :
    ∀ (fuel : Nat) (l : Lexer) (toks : List Token), NUL ∉ l.source →
      Lexer.tokenizeAux fuel l = .ok toks →
      (toks.map (fun t => t.value.data)).flatten =
        (l.source.drop l.pos).filter (fun c => !isspace c) := by
  intro fuel
  induction fuel with
  | zero => intro l toks _ h; simp [Lexer.tokenizeAux] at h
  | succ f ih =>
    intro l toks hN h
    rw [Lexer.tokenizeAux] at h
    cases hn : l.nextToken with
    | error msg => rw [hn] at h; cases h
    | ok r =>
      obtain ⟨tok, l'⟩ := r
      rw [hn] at h
      simp only [] at h
      by_cases ht : tok.type = .END_OF_FILE
      · rw [if_pos ht] at h
        injection h with h
        subst h
        obtain ⟨hp, -, -⟩ := (Lexer.nextToken_eof_iff l tok l').1 ⟨hn, ht⟩
        rw [Lexer.skipped_peek] at hp
        have hnil : (l.source.drop l.pos).dropWhile isspace = [] := by
          cases hd : (l.source.drop l.pos).dropWhile isspace with
          | nil => rfl
          | cons c cs =>
            rw [hd] at hp
            have hc : c = NUL := hp
            have hmem : c ∈ l.source :=
              List.mem_of_mem_drop ((List.dropWhile_suffix isspace).subset (by rw [hd]; simp))
            exact absurd (hc ▸ hmem) hN
        rw [Lexer.filter_drop_eq, Lexer.skipped_drop, hnil]
        rfl
      · rw [if_neg ht] at h
        obtain ⟨s1, s2, s3, s4⟩ := Lexer.nextToken_segment l tok l' hn ht
        cases hr : Lexer.tokenizeAux f l' with
        | fuelOut => rw [hr] at h; cases h
        | error msg => rw [hr] at h; cases h
        | ok rest =>
          rw [hr] at h
          injection h with h
          subst h
          have hrec := ih l' rest (by rw [s1]; exact hN) hr
          rw [s1] at hrec
          simp only [List.map_cons, List.flatten_cons]
          rw [Lexer.filter_drop_eq l, s2, List.filter_append,
            filter_not_space_of_none _ s4, hrec]

/-! ## The claims -/

/-- C1: the claim says that parsing the tokens of `int x;` returns a PROGRAM with one
DECLARATION child. The code does not: the tokens of `int x;` are KEYWORD `int`,
IDENTIFIER `x`, SYMBOL `;`, and on them `parse` throws "Expected '=' in assignment";
whatever the identifier text and whatever follows, `parse` throws. -/
theorem C1_declaration_rejected :
    tokenize "int x;".toList =
      .ok [⟨.KEYWORD, "int"⟩, ⟨.IDENTIFIER, "x"⟩, ⟨.SYMBOL, ";"⟩] ∧
    Parser.parse ⟨[⟨.KEYWORD, "int"⟩, ⟨.IDENTIFIER, "x"⟩, ⟨.SYMBOL, ";"⟩], 0⟩ =
      .error "Expected '=' in assignment" ∧
    ∀ (x : String) (rest : List Token), ∃ msg,
      Parser.parse ⟨⟨.KEYWORD, "int"⟩ :: ⟨.IDENTIFIER, x⟩ :: ⟨.SYMBOL, ";"⟩ :: rest, 0⟩ =
        .error msg := by
  refine ⟨rfl, rfl, ?_⟩
  intro x rest
  by_cases h1 : x = "int"
  · subst h1
    refine ⟨"Expected variable name after 'int'", ?_⟩
    simp [Parser.parse, Parser.parseLoop, Parser.parseStatement, Parser.match_, Parser.peek,
      Parser.advance, Parser.parseDeclaration]
  · by_cases h2 : x = "if"
    · subst h2
      refine ⟨"Expected a number in expression", ?_⟩
      simp [Parser.parse, Parser.parseLoop, Parser.parseStatement, Parser.match_, Parser.peek,
        Parser.advance, Parser.parseConditional, Parser.parseExpression,
        Parser.parseExpressionAux]
    · refine ⟨"Expected '=' in assignment", ?_⟩
      simp [Parser.parse, Parser.parseLoop, Parser.parseStatement, Parser.match_, Parser.peek,
        Parser.advance, Parser.parseAssignment, h1, h2]

/-- C2: the claim says that parsing the tokens of `x = 1 + 2 + 3;` returns a PROGRAM with
one ASSIGNMENT child over the right-nested tree. The code does not: on the tokens of that
source, and on every sequence that starts IDENTIFIER, OPERATOR `=`, NUMBER `1`, `parse`
throws "Expected '=' in assignment", because the text test looks at the token after `=`. -/
theorem C2_assignment_rejected :
    tokenize "x = 1 + 2 + 3;".toList =
      .ok [⟨.IDENTIFIER, "x"⟩, ⟨.OPERATOR, "="⟩, ⟨.NUMBER, "1"⟩, ⟨.OPERATOR, "+"⟩,
        ⟨.NUMBER, "2"⟩, ⟨.OPERATOR, "+"⟩, ⟨.NUMBER, "3"⟩, ⟨.SYMBOL, ";"⟩] ∧
    Parser.parse ⟨[⟨.IDENTIFIER, "x"⟩, ⟨.OPERATOR, "="⟩, ⟨.NUMBER, "1"⟩, ⟨.OPERATOR, "+"⟩,
        ⟨.NUMBER, "2"⟩, ⟨.OPERATOR, "+"⟩, ⟨.NUMBER, "3"⟩, ⟨.SYMBOL, ";"⟩], 0⟩ =
      .error "Expected '=' in assignment" ∧
    ∀ (x : String) (rest : List Token),
      Parser.parse ⟨⟨.IDENTIFIER, x⟩ :: ⟨.OPERATOR, "="⟩ :: ⟨.NUMBER, "1"⟩ :: rest, 0⟩ =
        .error "Expected '=' in assignment" := by
  refine ⟨rfl, rfl, ?_⟩
  intro x rest
  simp [Parser.parse, Parser.parseLoop, Parser.parseStatement, Parser.match_, Parser.peek,
    Parser.advance, Parser.parseAssignment]

/-- C3: when the token at the cursor has kind END_OF_FILE, which is the case on the empty
token sequence and on a sequence that starts with an END_OF_FILE token, `parse` returns
the PROGRAM node with payload "" and no children and leaves the cursor where it was. -/
theorem C3_empty_program (p : Parser) (h : p.peek.type = .END_OF_FILE) :
    p.parse = .ok (ASTNode.mk .PROGRAM "" [], p) := by
  unfold Parser.parse
  rw [Parser.parseLoop, if_neg (by simp [h])]

/-- C3 at the tokens of the empty source: the driver returns no token, and `parse` on the
empty sequence returns the empty PROGRAM with the cursor at 0. -/
theorem C3_empty_program_witness :
    tokenize [] = .ok [] ∧ (Parser.peek ⟨[], 0⟩).type = .END_OF_FILE ∧
    Parser.parse ⟨[], 0⟩ = .ok (ASTNode.mk .PROGRAM "" [], ⟨[], 0⟩) :=
  ⟨rfl, by decide, C3_empty_program ⟨[], 0⟩ (by decide)⟩

/-- C4: for every non-empty digit run `n` the tokens of `int n;` are KEYWORD `int`,
NUMBER `n`, SYMBOL `;`, and on these tokens, followed by any tokens, `parse` fails with an
error (thrown by the assignment rule) and returns no tree. -/
theorem C4_int_number (ds : List Char) (hne : ds ≠ []) (hd : ∀ c ∈ ds, isdigit c = true)
    (rest : List Token) :
    tokenize ("int ".toList ++ ds ++ [';']) =
      .ok [⟨.KEYWORD, "int"⟩, ⟨.NUMBER, String.mk ds⟩, ⟨.SYMBOL, ";"⟩] ∧
    Parser.parse ⟨[⟨.KEYWORD, "int"⟩, ⟨.NUMBER, String.mk ds⟩, ⟨.SYMBOL, ";"⟩] ++ rest, 0⟩ =
      .error "Expected variable name for assignment" := by
  refine ⟨tokenize_int_number ds hne hd, ?_⟩
  exact Parser.parse_int_number _ rest
    (mk_digits_ne ds hne hd ['i', 'n', 't'] (by decide))
    (mk_digits_ne ds hne hd ['i', 'f'] (by decide))

/-- C4 at the source `int 5;`. -/
theorem C4_int_number_witness :
    ['5'] ≠ [] ∧ (∀ c ∈ ['5'], isdigit c = true) ∧
    tokenize "int 5;".toList = .ok [⟨.KEYWORD, "int"⟩, ⟨.NUMBER, "5"⟩, ⟨.SYMBOL, ";"⟩] ∧
    Parser.parse ⟨[⟨.KEYWORD, "int"⟩, ⟨.NUMBER, "5"⟩, ⟨.SYMBOL, ";"⟩], 0⟩ =
      .error "Expected variable name for assignment" :=
  ⟨by decide, by decide, C4_int_number ['5'] (by decide) (by decide) []⟩

/-- C5: when the character after the whitespace is a letter, `nextToken` returns a token
whose text is the maximal run of letters and digits that starts there, leaves the cursor
right after the run (on a character that is no letter or digit), and gives the token
the kind KEYWORD exactly when the text is `int`, `if`, `then` or `else` and the kind
IDENTIFIER exactly when it is none of them. -/
theorem C5_word (l : Lexer) (h : isalpha l.skipped.peek = true) :
    ∃ tok, l.nextToken = .ok (tok,
        ⟨l.source, l.afterSpaces + (maximalRun isalnum l.source l.afterSpaces).length⟩)
      ∧ tok.value = String.mk (maximalRun isalnum l.source l.afterSpaces)
      ∧ isalnum (Lexer.peek
          ⟨l.source, l.afterSpaces + (maximalRun isalnum l.source l.afterSpaces).length⟩) = false
      ∧ (tok.type = .KEYWORD ↔
          (tok.value = "int" ∨ tok.value = "if" ∨ tok.value = "then" ∨ tok.value = "else"))
      ∧ (tok.type = .IDENTIFIER ↔
          ¬ (tok.value = "int" ∨ tok.value = "if" ∨ tok.value = "then" ∨ tok.value = "else")) := by
  rw [Lexer.nextToken_unfold, if_pos h]
  refine ⟨_, rfl, rfl, Lexer.peek_after_run isalnum (by decide) _ _, ?_, ?_⟩
  · rw [← count_KEYWORDS]
    by_cases hk : count KEYWORDS ⟨List.takeWhile isalnum (List.drop l.afterSpaces l.source)⟩ ≠ 0
    · simp [hk, maximalRun]
    · simp [hk, maximalRun]
  · rw [← count_KEYWORDS]
    by_cases hk : count KEYWORDS ⟨List.takeWhile isalnum (List.drop l.afterSpaces l.source)⟩ ≠ 0
    · simp [hk, maximalRun]
    · simp [hk, maximalRun]

/-- C5 at the source `  then1 x`: the token text is `then1` and the cursor ends at 7. -/
theorem C5_word_witness :
    isalpha (Lexer.skipped ⟨"  then1 x".toList, 0⟩).peek = true ∧
    ∃ tok, Lexer.nextToken ⟨"  then1 x".toList, 0⟩ = .ok (tok, ⟨"  then1 x".toList, 7⟩)
      ∧ tok.value = "then1"
      ∧ isalnum (Lexer.peek ⟨"  then1 x".toList, 7⟩) = false
      ∧ (tok.type = .KEYWORD ↔
          (tok.value = "int" ∨ tok.value = "if" ∨ tok.value = "then" ∨ tok.value = "else"))
      ∧ (tok.type = .IDENTIFIER ↔
          ¬ (tok.value = "int" ∨ tok.value = "if" ∨ tok.value = "then" ∨ tok.value = "else")) :=
  ⟨by decide, C5_word ⟨"  then1 x".toList, 0⟩ (by decide)⟩

/-- C6: when the character after the whitespace is a digit, `nextToken` returns a NUMBER
token whose text is the maximal run of digits that starts there and leaves the cursor on
the first character after the run, which is not a digit. -/
theorem C6_number (l : Lexer) (h : isdigit l.skipped.peek = true) :
    l.nextToken = .ok (⟨.NUMBER, String.mk (maximalRun isdigit l.source l.afterSpaces)⟩,
        ⟨l.source, l.afterSpaces + (maximalRun isdigit l.source l.afterSpaces).length⟩)
      ∧ isdigit (Lexer.peek
          ⟨l.source, l.afterSpaces + (maximalRun isdigit l.source l.afterSpaces).length⟩) = false := by
  rw [Lexer.nextToken_unfold, if_neg (by simp [isalpha_false_of_isdigit _ h]), if_pos h]
  exact ⟨rfl, Lexer.peek_after_run isdigit (by decide) _ _⟩

/-- C6 at the source ` 12ab`: the token is NUMBER `12` and the cursor stops on `a`. -/
theorem C6_number_witness :
    isdigit (Lexer.skipped ⟨" 12ab".toList, 0⟩).peek = true ∧
    Lexer.nextToken ⟨" 12ab".toList, 0⟩ = .ok (⟨.NUMBER, "12"⟩, ⟨" 12ab".toList, 3⟩) ∧
    isdigit (Lexer.peek ⟨" 12ab".toList, 3⟩) = false :=
  ⟨by decide, C6_number ⟨" 12ab".toList, 0⟩ (by decide)⟩

/-- C7: when the character `c` after the whitespace is `+`, `-` or `=`, `nextToken` returns
an OPERATOR token; if `c` is `=` and the next character is `=` the text is `==` and the
cursor moves two characters on; in every other case the text is `c` alone and the cursor
moves exactly one character on. -/
theorem C7_operator (l : Lexer)
    (h : l.skipped.peek = '+' ∨ l.skipped.peek = '-' ∨ l.skipped.peek = '=') :
    (l.skipped.peek = '=' ∧ Lexer.peek ⟨l.source, l.afterSpaces + 1⟩ = '=' →
      l.nextToken = .ok (⟨.OPERATOR, "=="⟩, ⟨l.source, l.afterSpaces + 2⟩)) ∧
    (¬ (l.skipped.peek = '=' ∧ Lexer.peek ⟨l.source, l.afterSpaces + 1⟩ = '=') →
      l.nextToken = .ok (⟨.OPERATOR, String.singleton l.skipped.peek⟩,
        ⟨l.source, l.afterSpaces + 1⟩)) := by
  rw [Lexer.nextToken_operator l h]
  constructor
  · intro h2; rw [if_pos h2]
  · intro h2; rw [if_neg h2]

/-- C7 at the source ` +=1`: the token is OPERATOR `+`, and the `=` is left unread. -/
theorem C7_operator_witness :
    ((Lexer.skipped ⟨" +=1".toList, 0⟩).peek = '+' ∨
      (Lexer.skipped ⟨" +=1".toList, 0⟩).peek = '-' ∨
      (Lexer.skipped ⟨" +=1".toList, 0⟩).peek = '=') ∧
    Lexer.nextToken ⟨" +=1".toList, 0⟩ = .ok (⟨.OPERATOR, "+"⟩, ⟨" +=1".toList, 2⟩) ∧
    Lexer.peek ⟨" +=1".toList, 2⟩ = '=' :=
  ⟨by decide, (C7_operator ⟨" +=1".toList, 0⟩ (by decide)).2 (by decide), by decide⟩

/-- C8: on a source of whitespace only (the empty source included) every call of
`nextToken`, the first and each later one, returns END_OF_FILE with empty text; and on any
source, once a call has returned END_OF_FILE, every further call returns the same token
and leaves the scanner, cursor included, unchanged. -/
theorem C8_whitespace_only (l : Lexer) (hws : ∀ c ∈ l.source, isspace c = true) :
    (∀ n, Lexer.callAfter n l = .ok (⟨.END_OF_FILE, ""⟩, l.skipped)) ∧
    (∀ (m : Lexer) (tok : Token) (m' : Lexer), m.nextToken = .ok (tok, m') →
      tok.type = .END_OF_FILE → ∀ n, Lexer.callAfter n m' = .ok (tok, m')) := by
  have hfix : ∀ (m : Lexer) (tok : Token) (m' : Lexer), m.nextToken = .ok (tok, m') →
      tok.type = .END_OF_FILE → ∀ n, Lexer.callAfter n m' = .ok (tok, m') := by
    intro m tok m' h ht
    obtain ⟨hp, rfl, rfl⟩ := (Lexer.nextToken_eof_iff m tok m').1 ⟨h, ht⟩
    exact Lexer.callAfter_fixed _ _ (Lexer.nextToken_skipped_of_NUL m hp)
  refine ⟨?_, hfix⟩
  have hp := skipped_peek_of_all_space l hws
  have h1 : l.nextToken = .ok (⟨.END_OF_FILE, ""⟩, l.skipped) :=
    ((Lexer.nextToken_eof_iff l _ _).2 ⟨hp, rfl, rfl⟩).1
  intro n
  cases n with
  | zero => exact h1
  | succ n => rw [Lexer.callAfter, h1]; exact hfix l _ _ h1 rfl n

/-- C8 at the source of a space, a tab, a newline and a space. -/
theorem C8_whitespace_only_witness :
    (∀ c ∈ " \t\n ".toList, isspace c = true) ∧
    (∀ n, Lexer.callAfter n ⟨" \t\n ".toList, 0⟩ =
      .ok (⟨.END_OF_FILE, ""⟩, ⟨" \t\n ".toList, 4⟩)) ∧
    (∀ (m : Lexer) (tok : Token) (m' : Lexer), m.nextToken = .ok (tok, m') →
      tok.type = .END_OF_FILE → ∀ n, Lexer.callAfter n m' = .ok (tok, m')) :=
  ⟨by decide, C8_whitespace_only ⟨" \t\n ".toList, 0⟩ (by decide)⟩

/-- C9 as stated fails on a source that holds a NUL character: on the source of NUL and
`x` the cursor is not at the end and the current character is in none of the classes, yet
`nextToken` does not fail; it returns END_OF_FILE with the cursor at 0 of 2. -/
theorem C9_nul_counterexample :
    Lexer.atUnknownChar ⟨[NUL, 'x'], 0⟩ ∧
    Lexer.nextToken ⟨[NUL, 'x'], 0⟩ = .ok (⟨.END_OF_FILE, ""⟩, ⟨[NUL, 'x'], 0⟩) ∧
    ¬ (Lexer.nextToken ⟨[NUL, 'x'], 0⟩ = .error "Unknown token" ↔
        Lexer.atUnknownChar ⟨[NUL, 'x'], 0⟩) := by
  have h1 : Lexer.atUnknownChar ⟨[NUL, 'x'], 0⟩ := by
    unfold Lexer.atUnknownChar
    decide
  have h2 : Lexer.nextToken ⟨[NUL, 'x'], 0⟩ = .ok (⟨.END_OF_FILE, ""⟩, ⟨[NUL, 'x'], 0⟩) := rfl
  refine ⟨h1, h2, ?_⟩
  intro h
  have h3 := h.2 h1
  rw [h2] at h3
  cases h3

/-- C9, amended: `nextToken` fails with "Unknown token" exactly when, after the whitespace,
the cursor is inside the source and the current character is none of: a letter, a digit,
`+`, `-`, `=`, `;`, `(`, `)`, and is not the NUL character; END_OF_FILE is returned exactly
when the cursor has reached the end of the source or stands on a NUL character. -/
theorem C9_unknown_token (l : Lexer) :
    (l.nextToken = .error "Unknown token" ↔ (l.atUnknownChar ∧ l.skipped.peek ≠ NUL)) ∧
    ((∃ tok l', l.nextToken = .ok (tok, l') ∧ tok.type = .END_OF_FILE) ↔
      (l.source.length ≤ l.afterSpaces ∨ l.skipped.peek = NUL)) := by
  constructor
  · rw [Lexer.nextToken_error_iff]
    unfold Lexer.atUnknownChar
    constructor
    · rintro ⟨-, h1, h2, h3, h4, h5, h6, h7, h8, h9⟩
      refine ⟨⟨?_, h1, h2, h3, h4, h5, h6, h7, h8⟩, h9⟩
      by_contra hlt
      exact h9 (Lexer.peek_of_length_le l.skipped (Nat.le_of_not_lt hlt))
    · rintro ⟨⟨-, h1, h2, h3, h4, h5, h6, h7, h8⟩, h9⟩
      exact ⟨rfl, h1, h2, h3, h4, h5, h6, h7, h8, h9⟩
  · constructor
    · rintro ⟨tok, l', h⟩
      exact Or.inr ((Lexer.nextToken_eof_iff l tok l').1 h).1
    · intro h
      have hp : l.skipped.peek = NUL := by
        rcases h with h | h
        · exact Lexer.peek_of_length_le l.skipped h
        · exact h
      exact ⟨_, _, (Lexer.nextToken_eof_iff l ⟨.END_OF_FILE, ""⟩ l.skipped).2 ⟨hp, rfl, rfl⟩⟩

/-- C10: on tokens that read, from the cursor, a chain `n1 o1 n2 ... nk` of NUMBER tokens
separated by OPERATOR tokens, followed by a token that is not an OPERATOR or by the end,
`parseExpression` succeeds, moves the cursor `2k - 1` tokens on and returns the
right-nested tree of the chain. -/
theorem C10_expression_chain (pre post : List Token) (n : Token) (chain : List (Token × Token))
    (hn : n.type = .NUMBER)
    (hchain : ∀ pr ∈ chain, pr.1.type = .OPERATOR ∧ pr.2.type = .NUMBER)
    (hpost : post.head?.map Token.type ≠ some .OPERATOR) :
    Parser.parseExpression ⟨pre ++ chainTokens n chain ++ post, pre.length⟩ =
      .ok (chainTree n chain,
        ⟨pre ++ chainTokens n chain ++ post, pre.length + (2 * (chain.length + 1) - 1)⟩) := by
  unfold Parser.parseExpression
  rw [Parser.parseExpressionAux_chain chain n pre post _ hn hchain hpost
    (by simp [chainTokens_length]; omega)]
  congr 3

/-- C10 at the tokens of `x = 1 + 2 - 3 ;` with the cursor on `1`: the tree is
`1 + (2 - 3)` and the cursor ends on `;`, five tokens on. -/
theorem C10_expression_chain_witness :
    (⟨.NUMBER, "1"⟩ : Token).type = .NUMBER ∧
    (∀ pr ∈ [((⟨.OPERATOR, "+"⟩ : Token), (⟨.NUMBER, "2"⟩ : Token)),
        (⟨.OPERATOR, "-"⟩, ⟨.NUMBER, "3"⟩)], pr.1.type = .OPERATOR ∧ pr.2.type = .NUMBER) ∧
    ([(⟨.SYMBOL, ";"⟩ : Token)].head?.map Token.type ≠ some .OPERATOR) ∧
    Parser.parseExpression
        ⟨[⟨.IDENTIFIER, "x"⟩, ⟨.OPERATOR, "="⟩, ⟨.NUMBER, "1"⟩, ⟨.OPERATOR, "+"⟩, ⟨.NUMBER, "2"⟩,
          ⟨.OPERATOR, "-"⟩, ⟨.NUMBER, "3"⟩, ⟨.SYMBOL, ";"⟩], 2⟩ =
      .ok (ASTNode.mk .EXPRESSION "+" [ASTNode.mk .EXPRESSION "1" [],
          ASTNode.mk .EXPRESSION "-" [ASTNode.mk .EXPRESSION "2" [],
            ASTNode.mk .EXPRESSION "3" []]],
        ⟨[⟨.IDENTIFIER, "x"⟩, ⟨.OPERATOR, "="⟩, ⟨.NUMBER, "1"⟩, ⟨.OPERATOR, "+"⟩, ⟨.NUMBER, "2"⟩,
          ⟨.OPERATOR, "-"⟩, ⟨.NUMBER, "3"⟩, ⟨.SYMBOL, ";"⟩], 7⟩) :=
  ⟨by decide, by decide, by decide,
    C10_expression_chain [⟨.IDENTIFIER, "x"⟩, ⟨.OPERATOR, "="⟩] [⟨.SYMBOL, ";"⟩] ⟨.NUMBER, "1"⟩
      [(⟨.OPERATOR, "+"⟩, ⟨.NUMBER, "2"⟩), (⟨.OPERATOR, "-"⟩, ⟨.NUMBER, "3"⟩)]
      (by decide) (by decide) (by decide)⟩

/-- C11: the claim says that `parse` fails on every sequence whose first token is the
KEYWORD `then` or `else`. The code does not: `match` has consumed that keyword before the
dispatch looks at the text of the next token, so the tokens of `then int x ; ;` are
accepted as a declaration of `x`, and the tokens of `else x = = 1 ; ;` as an assignment. -/
theorem C11_keyword_accepted :
    tokenize "then int x ; ;".toList =
      .ok [⟨.KEYWORD, "then"⟩, ⟨.KEYWORD, "int"⟩, ⟨.IDENTIFIER, "x"⟩, ⟨.SYMBOL, ";"⟩,
        ⟨.SYMBOL, ";"⟩] ∧
    Parser.parse ⟨[⟨.KEYWORD, "then"⟩, ⟨.KEYWORD, "int"⟩, ⟨.IDENTIFIER, "x"⟩, ⟨.SYMBOL, ";"⟩,
        ⟨.SYMBOL, ";"⟩], 0⟩ =
      .ok (ASTNode.mk .PROGRAM "" [ASTNode.mk .DECLARATION "x" []],
        ⟨[⟨.KEYWORD, "then"⟩, ⟨.KEYWORD, "int"⟩, ⟨.IDENTIFIER, "x"⟩, ⟨.SYMBOL, ";"⟩,
          ⟨.SYMBOL, ";"⟩], 5⟩) ∧
    Parser.parse ⟨[⟨.KEYWORD, "else"⟩, ⟨.IDENTIFIER, "x"⟩, ⟨.OPERATOR, "="⟩, ⟨.OPERATOR, "="⟩,
        ⟨.NUMBER, "1"⟩, ⟨.SYMBOL, ";"⟩, ⟨.SYMBOL, ";"⟩], 0⟩ =
      .ok (ASTNode.mk .PROGRAM "" [ASTNode.mk .ASSIGNMENT "x" [ASTNode.mk .EXPRESSION "1" []]],
        ⟨[⟨.KEYWORD, "else"⟩, ⟨.IDENTIFIER, "x"⟩, ⟨.OPERATOR, "="⟩, ⟨.OPERATOR, "="⟩,
          ⟨.NUMBER, "1"⟩, ⟨.SYMBOL, ";"⟩, ⟨.SYMBOL, ";"⟩], 7⟩) :=
  ⟨rfl, rfl, rfl⟩

/-- C12: the claim says that a first statement that starts with a non-KEYWORD token
succeeds only on IDENTIFIER, OPERATOR `=`, Expression, SYMBOL `;`, and fails otherwise. The
code does not: the tokens of `x + = 1 ( ;`, where `+` follows the identifier and `(` the
expression, are accepted, while the tokens of `x = 1 ;` are rejected. -/
theorem C12_assignment_accepted :
    tokenize "x + = 1 ( ;".toList =
      .ok [⟨.IDENTIFIER, "x"⟩, ⟨.OPERATOR, "+"⟩, ⟨.OPERATOR, "="⟩, ⟨.NUMBER, "1"⟩,
        ⟨.SYMBOL, "("⟩, ⟨.SYMBOL, ";"⟩] ∧
    Parser.parse ⟨[⟨.IDENTIFIER, "x"⟩, ⟨.OPERATOR, "+"⟩, ⟨.OPERATOR, "="⟩, ⟨.NUMBER, "1"⟩,
        ⟨.SYMBOL, "("⟩, ⟨.SYMBOL, ";"⟩], 0⟩ =
      .ok (ASTNode.mk .PROGRAM "" [ASTNode.mk .ASSIGNMENT "x" [ASTNode.mk .EXPRESSION "1" []]],
        ⟨[⟨.IDENTIFIER, "x"⟩, ⟨.OPERATOR, "+"⟩, ⟨.OPERATOR, "="⟩, ⟨.NUMBER, "1"⟩,
          ⟨.SYMBOL, "("⟩, ⟨.SYMBOL, ";"⟩], 6⟩) ∧
    Parser.parse ⟨[⟨.IDENTIFIER, "x"⟩, ⟨.OPERATOR, "="⟩, ⟨.NUMBER, "1"⟩, ⟨.SYMBOL, ";"⟩], 0⟩ =
      .error "Expected '=' in assignment" :=
  ⟨rfl, rfl, rfl⟩

/-- C13: each required terminal of an assignment takes two tokens and its text test
reads the second: on an IDENTIFIER, an OPERATOR of any text, a token with text `=`, a
NUMBER, a SYMBOL of any text and a token with text `;`, `parse` succeeds, takes all six
tokens and returns PROGRAM [ASSIGNMENT x [childless EXPRESSION n]]. -/
theorem C13_two_tokens_per_terminal (x o e n s t : Token)
    (hx : x.type = .IDENTIFIER) (ho : o.type = .OPERATOR) (he : e.value = "=")
    (hn : n.type = .NUMBER) (hs : s.type = .SYMBOL) (ht : t.value = ";") :
    Parser.parse ⟨[x, o, e, n, s, t], 0⟩ =
      .ok (ASTNode.mk .PROGRAM "" [ASTNode.mk .ASSIGNMENT x.value
          [ASTNode.mk .EXPRESSION n.value []]], ⟨[x, o, e, n, s, t], 6⟩) := by
  simp [Parser.parse, Parser.parseLoop, Parser.parseStatement, Parser.match_, Parser.peek,
    Parser.advance, Parser.parseAssignment, Parser.parseExpression, Parser.parseExpressionAux,
    hx, ho, he, hn, hs, ht]

/-- C13 at the tokens of `x + = 1 ( ;`. -/
theorem C13_two_tokens_per_terminal_witness :
    (⟨.IDENTIFIER, "x"⟩ : Token).type = .IDENTIFIER ∧ (⟨.OPERATOR, "+"⟩ : Token).type = .OPERATOR ∧
    (⟨.OPERATOR, "="⟩ : Token).value = "=" ∧ (⟨.NUMBER, "1"⟩ : Token).type = .NUMBER ∧
    (⟨.SYMBOL, "("⟩ : Token).type = .SYMBOL ∧ (⟨.SYMBOL, ";"⟩ : Token).value = ";" ∧
    Parser.parse ⟨[⟨.IDENTIFIER, "x"⟩, ⟨.OPERATOR, "+"⟩, ⟨.OPERATOR, "="⟩, ⟨.NUMBER, "1"⟩,
        ⟨.SYMBOL, "("⟩, ⟨.SYMBOL, ";"⟩], 0⟩ =
      .ok (ASTNode.mk .PROGRAM "" [ASTNode.mk .ASSIGNMENT "x" [ASTNode.mk .EXPRESSION "1" []]],
        ⟨[⟨.IDENTIFIER, "x"⟩, ⟨.OPERATOR, "+"⟩, ⟨.OPERATOR, "="⟩, ⟨.NUMBER, "1"⟩,
          ⟨.SYMBOL, "("⟩, ⟨.SYMBOL, ";"⟩], 6⟩) :=
  ⟨rfl, rfl, rfl, rfl, rfl, rfl,
    C13_two_tokens_per_terminal ⟨.IDENTIFIER, "x"⟩ ⟨.OPERATOR, "+"⟩ ⟨.OPERATOR, "="⟩
      ⟨.NUMBER, "1"⟩ ⟨.SYMBOL, "("⟩ ⟨.SYMBOL, ";"⟩ rfl rfl rfl rfl rfl rfl⟩

/-- C14: every tree that `parse` returns is well formed: the root is the only PROGRAM
node and has payload ""; its children are DECLARATION, ASSIGNMENT or CONDITIONAL nodes; a
DECLARATION has no children, an ASSIGNMENT one EXPRESSION child, an EXPRESSION no children
or two EXPRESSION children with the first childless, a CONDITIONAL payload `if` and two or
three children, an EXPRESSION and then statements; and the payload of every DECLARATION
and ASSIGNMENT is the text of an IDENTIFIER token of the input. -/
theorem C14_well_formed_tree (p : Parser) (root : ASTNode) (p' : Parser)
    (h : p.parse = .ok (root, p')) : root.wellFormedProgram p.tokens := by
  obtain ⟨cs, rfl, hcs⟩ := Parser.parseLoop_shape _ p [] root p' h (by simp)
  refine ⟨rfl, rfl, fun c hc => (hcs c hc).1, ?_⟩
  intro n hn
  obtain ⟨c, hc, hnc⟩ := (ASTNode.mem_nodesOfList n cs).1 hn
  exact (hcs c hc).2 n hnc

/-- C14 at the tokens of
`if if 1 + 2 then then int int y ; ; else else x = = 3 ; ;`, which `parse` accepts as one
conditional with a declaration and an assignment as branches. -/
theorem C14_well_formed_tree_witness :
    Parser.parse ⟨[⟨.KEYWORD, "if"⟩, ⟨.KEYWORD, "if"⟩, ⟨.NUMBER, "1"⟩, ⟨.OPERATOR, "+"⟩,
        ⟨.NUMBER, "2"⟩, ⟨.KEYWORD, "then"⟩, ⟨.KEYWORD, "then"⟩, ⟨.KEYWORD, "int"⟩,
        ⟨.KEYWORD, "int"⟩, ⟨.IDENTIFIER, "y"⟩, ⟨.SYMBOL, ";"⟩, ⟨.SYMBOL, ";"⟩,
        ⟨.KEYWORD, "else"⟩, ⟨.KEYWORD, "else"⟩, ⟨.IDENTIFIER, "x"⟩, ⟨.OPERATOR, "="⟩,
        ⟨.OPERATOR, "="⟩, ⟨.NUMBER, "3"⟩, ⟨.SYMBOL, ";"⟩, ⟨.SYMBOL, ";"⟩], 0⟩ =
      .ok (ASTNode.mk .PROGRAM "" [ASTNode.mk .CONDITIONAL "if"
          [ASTNode.mk .EXPRESSION "+" [ASTNode.mk .EXPRESSION "1" [],
              ASTNode.mk .EXPRESSION "2" []],
            ASTNode.mk .DECLARATION "y" [],
            ASTNode.mk .ASSIGNMENT "x" [ASTNode.mk .EXPRESSION "3" []]]],
        ⟨[⟨.KEYWORD, "if"⟩, ⟨.KEYWORD, "if"⟩, ⟨.NUMBER, "1"⟩, ⟨.OPERATOR, "+"⟩,
          ⟨.NUMBER, "2"⟩, ⟨.KEYWORD, "then"⟩, ⟨.KEYWORD, "then"⟩, ⟨.KEYWORD, "int"⟩,
          ⟨.KEYWORD, "int"⟩, ⟨.IDENTIFIER, "y"⟩, ⟨.SYMBOL, ";"⟩, ⟨.SYMBOL, ";"⟩,
          ⟨.KEYWORD, "else"⟩, ⟨.KEYWORD, "else"⟩, ⟨.IDENTIFIER, "x"⟩, ⟨.OPERATOR, "="⟩,
          ⟨.OPERATOR, "="⟩, ⟨.NUMBER, "3"⟩, ⟨.SYMBOL, ";"⟩, ⟨.SYMBOL, ";"⟩], 20⟩) ∧
    ASTNode.wellFormedProgram
      [⟨.KEYWORD, "if"⟩, ⟨.KEYWORD, "if"⟩, ⟨.NUMBER, "1"⟩, ⟨.OPERATOR, "+"⟩,
        ⟨.NUMBER, "2"⟩, ⟨.KEYWORD, "then"⟩, ⟨.KEYWORD, "then"⟩, ⟨.KEYWORD, "int"⟩,
        ⟨.KEYWORD, "int"⟩, ⟨.IDENTIFIER, "y"⟩, ⟨.SYMBOL, ";"⟩, ⟨.SYMBOL, ";"⟩,
        ⟨.KEYWORD, "else"⟩, ⟨.KEYWORD, "else"⟩, ⟨.IDENTIFIER, "x"⟩, ⟨.OPERATOR, "="⟩,
        ⟨.OPERATOR, "="⟩, ⟨.NUMBER, "3"⟩, ⟨.SYMBOL, ";"⟩, ⟨.SYMBOL, ";"⟩]
      (ASTNode.mk .PROGRAM "" [ASTNode.mk .CONDITIONAL "if"
          [ASTNode.mk .EXPRESSION "+" [ASTNode.mk .EXPRESSION "1" [],
              ASTNode.mk .EXPRESSION "2" []],
            ASTNode.mk .DECLARATION "y" [],
            ASTNode.mk .ASSIGNMENT "x" [ASTNode.mk .EXPRESSION "3" []]]]) :=
  ⟨rfl, C14_well_formed_tree
    ⟨[⟨.KEYWORD, "if"⟩, ⟨.KEYWORD, "if"⟩, ⟨.NUMBER, "1"⟩, ⟨.OPERATOR, "+"⟩,
      ⟨.NUMBER, "2"⟩, ⟨.KEYWORD, "then"⟩, ⟨.KEYWORD, "then"⟩, ⟨.KEYWORD, "int"⟩,
      ⟨.KEYWORD, "int"⟩, ⟨.IDENTIFIER, "y"⟩, ⟨.SYMBOL, ";"⟩, ⟨.SYMBOL, ";"⟩,
      ⟨.KEYWORD, "else"⟩, ⟨.KEYWORD, "else"⟩, ⟨.IDENTIFIER, "x"⟩, ⟨.OPERATOR, "="⟩,
      ⟨.OPERATOR, "="⟩, ⟨.NUMBER, "3"⟩, ⟨.SYMBOL, ";"⟩, ⟨.SYMBOL, ";"⟩], 0⟩ _ _ rfl⟩

/-- C15: `match(k)` answers true exactly when the kind of `peek()` is `k`; on false the
state is unchanged; on true the cursor moves on by one when it was inside the sequence and
stays when it was at or past the end, which happens only for `k` = END_OF_FILE; the token
sequence is unchanged and a cursor within the length stays within the length. -/
theorem C15_match (p : Parser) (k : TokenType) :
    ((p.match_ k).1 = true ↔ p.peek.type = k) ∧
    ((p.match_ k).1 = false → (p.match_ k).2 = p) ∧
    ((p.match_ k).1 = true → p.current < p.tokens.length →
      (p.match_ k).2.current = p.current + 1) ∧
    ((p.match_ k).1 = true → p.tokens.length ≤ p.current →
      (p.match_ k).2.current = p.current ∧ k = .END_OF_FILE) ∧
    (p.match_ k).2.tokens = p.tokens ∧
    (p.current ≤ p.tokens.length → (p.match_ k).2.current ≤ p.tokens.length) := by
  obtain ⟨a1, a2, a3, a4⟩ := Parser.match_step p k
  refine ⟨by simp [Parser.match_fst], ?_, ?_, ?_, a1, a3⟩
  · intro h
    rw [Parser.match_fst] at h
    rw [Parser.match_snd, if_neg (by simpa using h)]
  · intro h hlt
    rw [Parser.match_fst] at h
    rw [Parser.match_snd, if_pos (by simpa using h), Parser.advance_current, if_pos hlt]
  · intro h hle
    rw [Parser.match_fst] at h
    have hk : p.peek.type = k := by simpa using h
    have hp : p.peek = ⟨.END_OF_FILE, ""⟩ := by
      unfold Parser.peek
      rw [dif_neg (by omega)]
    rw [Parser.match_snd, if_pos hk, Parser.advance_current, if_neg (by omega)]
    exact ⟨rfl, by rw [← hk, hp]⟩

/-- C16: `parse` is total: on every state it returns a tree or fails with an error, and
every fuel from the default on gives the same result. A statement, with enough fuel,
fails or returns with the tokens unchanged and the cursor strictly further on; so does an
expression. The recursive call of `parseExpression` is made two tokens further on, and
the calls of `parseStatement` from `parseConditional` are made at a strictly larger
cursor than the one the conditional started from. -/
theorem C16_parse_total (p : Parser) :
    ((∃ root p', p.parse = .ok (root, p')) ∨ (∃ msg, p.parse = .error msg)) ∧
    (∀ fuel, p.tokens.length - p.current + 1 ≤ fuel → Parser.parseLoop fuel p [] = p.parse) ∧
    (∀ fuel, p.tokens.length - p.current + 2 ≤ fuel →
      ((∃ msg, Parser.parseStatement fuel p = .error msg) ∨
        (∃ n p', Parser.parseStatement fuel p = .ok (n, p') ∧ p'.tokens = p.tokens ∧
          p.current < p'.current ∧ p'.current ≤ p.tokens.length)) ∧
      Parser.parseStatement fuel p = Parser.parseStatement (p.tokens.length - p.current + 2) p) ∧
    ((∃ msg, p.parseExpression = .error msg) ∨
      (∃ n p', p.parseExpression = .ok (n, p') ∧ p'.tokens = p.tokens ∧
        p.current < p'.current ∧ p'.current ≤ p.tokens.length)) ∧
    (∀ fuel, p.tokens.length - p.current + 1 ≤ fuel →
      Parser.parseExpressionAux fuel p = p.parseExpression) ∧
    (p.advance.1.type = .NUMBER → p.advance.2.peek.type = .OPERATOR →
      p.advance.2.advance.2.current = p.current + 2) ∧
    (∀ condition q, p.advance.2.parseExpression = .ok (condition, q) →
      (q.match_ .KEYWORD).1 = true →
      p.current < (q.match_ .KEYWORD).2.advance.2.current ∧
      ∀ fuel thenBranch r,
        Parser.parseStatement fuel (q.match_ .KEYWORD).2.advance.2 = .ok (thenBranch, r) →
        p.current < (r.match_ .KEYWORD).2.advance.2.current) := by
  refine ⟨?_, ?_, ?_, ?_, fun fuel h => Parser.parseExpressionAux_fuel p fuel h, ?_, ?_⟩
  · rcases Outcome.cases_of_ne_fuelOut _ (Parser.parse_ne_fuelOut p) with ⟨⟨root, p'⟩, h⟩ | h
    · exact Or.inl ⟨root, p', h⟩
    · exact Or.inr h
  · exact fun fuel h => Parser.parseLoop_fuel p fuel h
  · intro fuel h
    refine ⟨?_, Parser.parseStatement_fuel p fuel h⟩
    rcases Outcome.cases_of_ne_fuelOut _ (Parser.parseStatement_ne_fuelOut fuel p h)
      with ⟨⟨n, p'⟩, hs⟩ | hs
    · exact Or.inr ⟨n, p', hs, Parser.parseStatement_progress _ _ _ _ hs⟩
    · exact Or.inl hs
  · rcases Outcome.cases_of_ne_fuelOut _ (Parser.parseExpression_ne_fuelOut p)
      with ⟨⟨n, p'⟩, hs⟩ | hs
    · exact Or.inr ⟨n, p', hs, Parser.parseExpression_progress _ _ _ hs⟩
    · exact Or.inl hs
  · intro h1 h2
    obtain ⟨a1, a2, a3, a4⟩ := Parser.advance_step p
    obtain ⟨b1, b2, b3, b4⟩ := Parser.advance_step p.advance.2
    obtain ⟨c1, c2⟩ := a4 (by rw [h1]; decide)
    obtain ⟨d1, d2⟩ := b4 (by rw [Parser.advance_fst, h2]; decide)
    omega
  · intro condition q hq hm
    obtain ⟨a1, a2, a3, a4⟩ := Parser.advance_step p
    obtain ⟨b1, b2, b3⟩ := Parser.parseExpression_progress _ _ _ hq
    obtain ⟨c1, c2, c3, c4⟩ := Parser.match_step q .KEYWORD
    obtain ⟨d1, d2, d3, d4⟩ := Parser.advance_step (q.match_ .KEYWORD).2
    refine ⟨by omega, ?_⟩
    intro fuel thenBranch r hr
    obtain ⟨e1, e2, e3⟩ := Parser.parseStatement_progress _ _ _ _ hr
    obtain ⟨f1, f2, f3, f4⟩ := Parser.match_step r .KEYWORD
    obtain ⟨g1, g2, g3, g4⟩ := Parser.advance_step (r.match_ .KEYWORD).2
    omega

/-- C17: for a cursor within the source, after a call of `nextToken`, returned or thrown,
the source is the same and the cursor has not moved back and is still within the source;
a token of a kind other than END_OF_FILE moves the cursor strictly forward and has a
non-empty text without whitespace; hence after as many calls as there are characters left
every call fails or returns END_OF_FILE, and the driver returns at most that many
tokens. -/
theorem C17_cursor (l : Lexer) (hpos : l.pos ≤ l.source.length) :
    (l.stateAfter.source = l.source ∧ l.pos ≤ l.stateAfter.pos ∧
      l.stateAfter.pos ≤ l.source.length) ∧
    (∀ tok l', l.nextToken = .ok (tok, l') → tok.type ≠ .END_OF_FILE →
      l.pos < l'.pos ∧ tok.value.data ≠ [] ∧ ∀ c ∈ tok.value.data, isspace c = false) ∧
    (∀ n, l.source.length - l.pos ≤ n →
      (∃ msg, Lexer.callAfter n l = .error msg) ∨
        (∃ tok l', Lexer.callAfter n l = .ok (tok, l') ∧ tok.type = .END_OF_FILE)) ∧
    (Lexer.tokenizeAux (l.source.length - l.pos + 1) l ≠ .fuelOut ∧
      ∀ toks, Lexer.tokenizeAux (l.source.length - l.pos + 1) l = .ok toks →
        toks.length ≤ l.source.length - l.pos) := by
  refine ⟨Lexer.stateAfter_bounds l hpos, ?_, fun n hn => Lexer.callAfter_late n l hpos hn,
    Lexer.tokenizeAux_bound _ l hpos (Nat.le_refl _)⟩
  intro tok l' h ht
  obtain ⟨-, -, h3, h4⟩ := Lexer.nextToken_segment l tok l' h ht
  exact ⟨(Lexer.nextToken_progress l tok l' h ht).2.2.2, h3, h4⟩

/-- C17 at the source `x = 12 ;` with the cursor at 0. -/
theorem C17_cursor_witness :
    (0 : Nat) ≤ "x = 12 ;".toList.length ∧
    ((Lexer.stateAfter ⟨"x = 12 ;".toList, 0⟩).source = "x = 12 ;".toList ∧
      0 ≤ (Lexer.stateAfter ⟨"x = 12 ;".toList, 0⟩).pos ∧
      (Lexer.stateAfter ⟨"x = 12 ;".toList, 0⟩).pos ≤ "x = 12 ;".toList.length) ∧
    (∀ tok l', Lexer.nextToken ⟨"x = 12 ;".toList, 0⟩ = .ok (tok, l') → tok.type ≠ .END_OF_FILE →
      0 < l'.pos ∧ tok.value.data ≠ [] ∧ ∀ c ∈ tok.value.data, isspace c = false) ∧
    (∀ n, "x = 12 ;".toList.length - 0 ≤ n →
      (∃ msg, Lexer.callAfter n ⟨"x = 12 ;".toList, 0⟩ = .error msg) ∨
        (∃ tok l', Lexer.callAfter n ⟨"x = 12 ;".toList, 0⟩ = .ok (tok, l') ∧
          tok.type = .END_OF_FILE)) ∧
    (Lexer.tokenizeAux ("x = 12 ;".toList.length - 0 + 1) ⟨"x = 12 ;".toList, 0⟩ ≠ .fuelOut ∧
      ∀ toks, Lexer.tokenizeAux ("x = 12 ;".toList.length - 0 + 1) ⟨"x = 12 ;".toList, 0⟩ =
          .ok toks → toks.length ≤ "x = 12 ;".toList.length - 0) :=
  ⟨by decide, C17_cursor ⟨"x = 12 ;".toList, 0⟩ (by decide)⟩

/-- C18: the claim says that `parse` fails on every sequence from the scanner that begins
with KEYWORD `int`, IDENTIFIER `x`. The code does not: `match` has consumed `int` before
the dispatch, the statement is parsed as an assignment that starts at `x`, and there each
terminal takes two tokens; so the tokens of `int x = = 1 ; ;` are accepted, as an
assignment to `x`, with all seven tokens consumed. -/
theorem C18_int_prefix_accepted :
    tokenize "int x = = 1 ; ;".toList =
      .ok [⟨.KEYWORD, "int"⟩, ⟨.IDENTIFIER, "x"⟩, ⟨.OPERATOR, "="⟩, ⟨.OPERATOR, "="⟩,
        ⟨.NUMBER, "1"⟩, ⟨.SYMBOL, ";"⟩, ⟨.SYMBOL, ";"⟩] ∧
    Parser.parse ⟨[⟨.KEYWORD, "int"⟩, ⟨.IDENTIFIER, "x"⟩, ⟨.OPERATOR, "="⟩, ⟨.OPERATOR, "="⟩,
        ⟨.NUMBER, "1"⟩, ⟨.SYMBOL, ";"⟩, ⟨.SYMBOL, ";"⟩], 0⟩ =
      .ok (ASTNode.mk .PROGRAM "" [ASTNode.mk .ASSIGNMENT "x" [ASTNode.mk .EXPRESSION "1" []]],
        ⟨[⟨.KEYWORD, "int"⟩, ⟨.IDENTIFIER, "x"⟩, ⟨.OPERATOR, "="⟩, ⟨.OPERATOR, "="⟩,
          ⟨.NUMBER, "1"⟩, ⟨.SYMBOL, ";"⟩, ⟨.SYMBOL, ";"⟩], 7⟩) :=
  ⟨rfl, rfl⟩

/-- C19: for a source without a NUL character on which the driver reaches END_OF_FILE
without an error, the texts of the returned tokens, concatenated in order, are the source
with its whitespace characters removed. -/
theorem C19_only_whitespace_lost (src : List Char) (toks : List Token) (hN : NUL ∉ src)
    (h : tokenize src = .ok toks) :
    String.join (toks.map Token.value) = String.mk (src.filter (fun c => !isspace c)) := by
  have := Lexer.tokenizeAux_texts _ ⟨src, 0⟩ toks hN h
  rw [String.join_eq, List.map_map]
  exact congrArg String.mk this

/-- C19 at a source of four tokens with whitespace around and between them. -/
theorem C19_only_whitespace_lost_witness :
    NUL ∉ " x1 = 12 ;\n".toList ∧
    tokenize " x1 = 12 ;\n".toList =
      .ok [⟨.IDENTIFIER, "x1"⟩, ⟨.OPERATOR, "="⟩, ⟨.NUMBER, "12"⟩, ⟨.SYMBOL, ";"⟩] ∧
    String.join ([⟨.IDENTIFIER, "x1"⟩, ⟨.OPERATOR, "="⟩, ⟨.NUMBER, "12"⟩,
        (⟨.SYMBOL, ";"⟩ : Token)].map Token.value) =
      String.mk (" x1 = 12 ;\n".toList.filter (fun c => !isspace c)) :=
  ⟨by decide, rfl, C19_only_whitespace_lost " x1 = 12 ;\n".toList _ (by decide) rfl⟩

/-- C20: in `parseConditional`, after the condition, the `then` test and the then-branch
have succeeded and left the state `r`: if the current token of `r` is a KEYWORD and the
token after it does not have the text `else`, the conditional returns a node with exactly
the two children condition and then-branch and the cursor one token on, the keyword
consumed; if the current token is not a KEYWORD, it returns the same node with the cursor
unchanged. -/
theorem C20_else_test (fuel : Nat) (p : Parser) (condition thenBranch : ASTNode) (q r : Parser)
    (hcond : p.advance.2.parseExpression = .ok (condition, q))
    (hkw : (q.match_ .KEYWORD).1 = true)
    (hthen : (q.match_ .KEYWORD).2.peek.value = "then")
    (hbranch : Parser.parseStatement fuel (q.match_ .KEYWORD).2.advance.2 =
      .ok (thenBranch, r)) :
    (r.peek.type = .KEYWORD → (Parser.peek ⟨r.tokens, r.current + 1⟩).value ≠ "else" →
      Parser.parseConditional (fuel + 1) p =
        .ok (ASTNode.mk .CONDITIONAL "if" [condition, thenBranch],
          ⟨r.tokens, r.current + 1⟩)) ∧
    (r.peek.type ≠ .KEYWORD →
      Parser.parseConditional (fuel + 1) p =
        .ok (ASTNode.mk .CONDITIONAL "if" [condition, thenBranch], r)) := by
  rw [Parser.parseConditional_succ, hcond]
  simp only [hkw, hthen, hbranch]
  constructor
  · intro hk helse
    have hlt := Parser.lt_of_peek_type r (by rw [hk]; decide)
    have hm : (r.match_ .KEYWORD).2 = ⟨r.tokens, r.current + 1⟩ := by
      rw [Parser.match_snd, if_pos hk]
      unfold Parser.advance
      rw [dif_pos hlt]
    have hm1 : (r.match_ .KEYWORD).1 = true := by simp [Parser.match_fst, hk]
    simp [hm, hm1, helse]
  · intro hk
    have hm : (r.match_ .KEYWORD).2 = r := by rw [Parser.match_snd, if_neg hk]
    have hm1 : (r.match_ .KEYWORD).1 = false := by simp [Parser.match_fst, hk]
    simp [hm, hm1]

/-- C20 at the tokens of `if if 1 then then x = = 2 ; ; else x`, cursor at 1: the `else`
is consumed and no else-branch is attached. -/
theorem C20_else_test_witness :
    tokenize "if if 1 then then x = = 2 ; ; else x".toList = .ok elseEaten ∧
    Parser.parseExpression (Parser.advance ⟨elseEaten, 1⟩).2 =
      .ok (ASTNode.mk .EXPRESSION "1" [], ⟨elseEaten, 3⟩) ∧
    (Parser.match_ ⟨elseEaten, 3⟩ .KEYWORD).1 = true ∧
    (Parser.match_ ⟨elseEaten, 3⟩ .KEYWORD).2.peek.value = "then" ∧
    Parser.parseStatement 3 (Parser.match_ ⟨elseEaten, 3⟩ .KEYWORD).2.advance.2 =
      .ok (ASTNode.mk .ASSIGNMENT "x" [ASTNode.mk .EXPRESSION "2" []], ⟨elseEaten, 11⟩) ∧
    (Parser.peek ⟨elseEaten, 11⟩).type = .KEYWORD ∧
    (Parser.peek ⟨elseEaten, 11 + 1⟩).value ≠ "else" ∧
    Parser.parseConditional (3 + 1) ⟨elseEaten, 1⟩ =
      .ok (ASTNode.mk .CONDITIONAL "if" [ASTNode.mk .EXPRESSION "1" [],
          ASTNode.mk .ASSIGNMENT "x" [ASTNode.mk .EXPRESSION "2" []]], ⟨elseEaten, 11 + 1⟩) :=
  ⟨rfl, rfl, rfl, rfl, rfl, rfl, by decide,
    (C20_else_test 3 ⟨elseEaten, 1⟩ (ASTNode.mk .EXPRESSION "1" [])
      (ASTNode.mk .ASSIGNMENT "x" [ASTNode.mk .EXPRESSION "2" []]) ⟨elseEaten, 3⟩
      ⟨elseEaten, 11⟩ rfl rfl rfl rfl).1 rfl (by decide)⟩

end SimpleLang
